import Mathlib

/-!
Verification development for the prompt-iteration-workbench repository.

The Python sources are shallowly embedded as executable Lean definitions:
pure functions become Lean functions, dataclasses become structures, the
engine's in-place mutation of freshly copied states is modelled by an
explicit heap of state objects and history lists, and fallible code
returns `Except`.  Python `int` is modelled by `Int`, Python strings by
`String` (ASCII behaviour; the sources only rely on ASCII).
-/

set_option maxRecDepth 10000

/-! ## Character classes and low-level string helpers -/

/-- Left brace character, written via its code point. -/
def lb : Char := Char.ofNat 123

/-- Right brace character, written via its code point. -/
def rb : Char := Char.ofNat 125

/-- ASCII whitespace accepted by the regex class used in the sources. -/
def isWsChar (c : Char) : Bool :=
  c = ' ' || c = '\t' || c = '\n' || c = '\r' || c = Char.ofNat 11 || c = Char.ofNat 12

/-- Characters allowed in a template token name by the regex class. -/
def isTokenChar (c : Char) : Bool :=
  ('A' ≤ c && c ≤ 'Z') || ('0' ≤ c && c ≤ '9') || c = '_'

/-- Take the maximal whitespace run from the front of a character list. -/
def takeWs : List Char → List Char × List Char
  | [] => ([], [])
  | c :: r =>
    if isWsChar c then
      let p := takeWs r
      (c :: p.1, p.2)
    else ([], c :: r)

/-- Take the maximal token-name-character run from the front of a list. -/
def takeName : List Char → List Char × List Char
  | [] => ([], [])
  | c :: r =>
    if isTokenChar c then
      let p := takeName r
      (c :: p.1, p.2)
    else ([], c :: r)

/-- Does the first list occur as a contiguous prefix of the second one? -/
def startsWithList : List Char → List Char → Bool
  | [], _ => true
  | _ :: _, [] => false
  | a :: as, b :: bs => a = b && startsWithList as bs

/-- Python substring membership (`needle in hay`) on character lists. -/
def containsList (needle : List Char) : List Char → Bool
  | [] => needle.isEmpty
  | c :: rest => startsWithList needle (c :: rest) || containsList needle rest

/-- Python substring membership on strings (`needle in hay`). -/
def strContains (hay needle : String) : Bool :=
  containsList needle.data hay.data

/-- Python `str.upper` restricted to the ASCII range used by the sources. -/
def upperStr (s : String) : String :=
  String.mk (s.data.map Char.toUpper)

/-- Python `str.lower` restricted to the ASCII range used by the sources. -/
def lowerStr (s : String) : String :=
  String.mk (s.data.map Char.toLower)

/-- Drop leading ASCII whitespace characters. -/
def dropWs : List Char → List Char
  | [] => []
  | c :: r => if isWsChar c then dropWs r else c :: r

/-- Python `str.strip` (ASCII whitespace on both ends). -/
def pyStrip (s : String) : String :=
  String.mk ((dropWs ((dropWs s.data).reverse)).reverse)

/-- Python `str.startswith`. -/
def strStartsWith (s pre : String) : Bool :=
  startsWithList pre.data s.data

/-- Python `str.endswith`. -/
def strEndsWith (s suf : String) : Bool :=
  startsWithList suf.data.reverse s.data.reverse

/-! ## The token scanner shared by prompt_templates.py and prompt_architect.py

Both modules compile the same regular expression
(two left braces, optional whitespace, a nonempty run of token-name
characters, optional whitespace, two right braces) and scan text left to
right with `re.sub` / `re.finditer`.  Because whitespace characters,
token-name characters and the brace characters are pairwise disjoint,
the regex backtracking semantics coincide with the maximal-munch parse
implemented by `tryToken`. -/

/-- Try to match the token pattern at the head of the character list.
Returns the matched characters (regex group 0), the token name (group 1)
and the remaining characters after the match. -/
def tryToken : List Char → Option (List Char × String × List Char)
  | c1 :: c2 :: y =>
    if c1 = lb ∧ c2 = lb then
      let pw := takeWs y
      let pn := takeName pw.2
      if pn.1 = [] then none
      else
        let pw2 := takeWs pn.2
        match pw2.2 with
        | d1 :: d2 :: r =>
          if d1 = rb ∧ d2 = rb then
            some (c1 :: c2 :: (pw.1 ++ pn.1 ++ pw2.1 ++ [d1, d2]), String.mk pn.1, r)
          else none
        | _ => none
    else none
  | _ => none

/-- Fuel-driven left-to-right scan substituting tokens.  The decision
function returns `some repl` to replace a matched token and `none` to keep
the matched text unchanged (regex group 0 pass-through). -/
def substAux (f : String → Option String) : Nat → List Char → List Char
  | 0, cs => cs
  | _ + 1, [] => []
  | fuel + 1, c :: rest =>
    match tryToken (c :: rest) with
    | some (m, name, r) =>
      (match f name with
       | some repl => repl.data
       | none => m) ++ substAux f fuel r
    | none => c :: substAux f fuel rest

/-- Token substitution over a string, with fuel fixed to the input length. -/
def substTokens (f : String → Option String) (s : String) : String :=
  String.mk (substAux f s.data.length s.data)

/-- Fuel-driven left-to-right scan collecting matched token names in order. -/
def findAux : Nat → List Char → List String
  | 0, _ => []
  | _ + 1, [] => []
  | fuel + 1, c :: rest =>
    match tryToken (c :: rest) with
    | some (_, name, r) => name :: findAux fuel r
    | none => findAux fuel rest

/-- Token names referenced by a template, in scan order (the Python
sources collect them into a set; list membership models set membership). -/
def findTokensList (s : String) : List String :=
  findAux s.data.length s.data


/-! ## models.py — IterationRecord and ProjectState -/

/-- History event tag for additive/reductive phase steps. -/
def HISTORY_EVENT_PHASE_STEP : String := "phase_step"

/-- History event tag for prompt-architect template generation. -/
def HISTORY_EVENT_PROMPT_ARCHITECT : String := "prompt_architect"

/-- History event tag for structural-repair attempts. -/
def HISTORY_EVENT_REPAIR : String := "repair"

/-- Modelled from the spec: the restore event tag is used by
history_restore.py and its tests but is not declared in the checked-in
models.py; the spec names the variant `restore`. -/
def HISTORY_EVENT_RESTORE : String := "restore"

/-- Canonical history entry for one generated phase step (raw dataclass
fields, before `__post_init__` normalization).  `created_at` is an opaque
timestamp string supplied at construction time. -/
structure IterationRecord where
  event_type : String := HISTORY_EVENT_PHASE_STEP
  iteration_index : Int := 0
  pair_index : Int := 0
  phase_step_index : Int := 0
  phase_name : String := ""
  model_used : String := ""
  note_summary : String := ""
  change_summary : String := ""
  prompt_rendered : String := ""
  output_snapshot : String := ""
  created_at : String := ""
  deriving Repr, DecidableEq

/-- The `__post_init__` normalization of IterationRecord: backward
compatibility between `iteration_index` and `pair_index`. -/
def IterationRecord.postInit (r : IterationRecord) : IterationRecord :=
  if r.iteration_index ≤ 0 ∧ r.pair_index > 0 then
    { r with iteration_index := r.pair_index }
  else if r.pair_index ≤ 0 ∧ r.iteration_index > 0 then
    { r with pair_index := r.iteration_index }
  else if r.iteration_index > 0 ∧ r.pair_index > 0 ∧ r.iteration_index ≠ r.pair_index then
    { r with pair_index := r.iteration_index }
  else r

/-- Constructing an IterationRecord in Python always runs `__post_init__`;
every construction site in the embedding goes through this function. -/
def mkIterationRecord (r : IterationRecord) : IterationRecord :=
  r.postInit

/-- Copying a record via `IterationRecord(**record.__dict__)` re-runs the
constructor and therefore `__post_init__` on identical field values. -/
def copyRecord (r : IterationRecord) : IterationRecord :=
  mkIterationRecord r

/-- Create a non-iteration history record for prompt template generation. -/
def makePromptArchitectEvent (model_used note_summary : String) : IterationRecord :=
  mkIterationRecord
    { event_type := HISTORY_EVENT_PROMPT_ARCHITECT
      model_used := model_used
      note_summary := pyStrip note_summary }

/-- Create a non-phase history record for one structural repair attempt. -/
def makeRepairEvent (model_used note_summary prompt_rendered output_snapshot : String) :
    IterationRecord :=
  mkIterationRecord
    { event_type := HISTORY_EVENT_REPAIR
      model_used := model_used
      note_summary := pyStrip note_summary
      prompt_rendered := prompt_rendered
      output_snapshot := output_snapshot }

/-- Modelled from the spec: `make_restore_event` is called by
history_restore.py but is not declared in the checked-in models.py.  Per
the spec, restoring "appends a `restore` event" whose shape matches the
other non-phase events, "with phase fields left at defaults", carrying
the note and the restored output snapshot. -/
def makeRestoreEvent (note_summary output_snapshot : String) : IterationRecord :=
  mkIterationRecord
    { event_type := HISTORY_EVENT_RESTORE
      note_summary := pyStrip note_summary
      output_snapshot := output_snapshot }

/-- Canonical in-memory representation of project inputs and history, as
declared in the checked-in models.py. -/
structure ProjectState where
  schema_version : Int := 1
  outcome : String := ""
  requirements_constraints : String := ""
  special_resources : String := ""
  iterations : Int := 1
  output_format : String := "Markdown"
  additive_phase_allowed_changes : String := ""
  reductive_phase_allowed_changes : String := ""
  additive_prompt_template : String := ""
  reductive_prompt_template : String := ""
  current_output : String := ""
  history : List IterationRecord := []
  deriving Repr, DecidableEq

/-- Modelled from the spec: persistence.py and main.py read the fields
`project_title`, `additive_phase_model_tier` and
`reductive_phase_model_tier` on ProjectState, which the checked-in
models.py does not declare ("two independently-set model tiers
(`budget`|`premium`) for additive and reductive phases").  This structure
mirrors the state shape persistence.py serializes. -/
structure PersistedProjectState where
  schema_version : Int := 1
  project_title : String := ""
  outcome : String := ""
  requirements_constraints : String := ""
  special_resources : String := ""
  iterations : Int := 1
  output_format : String := "Markdown"
  additive_phase_model_tier : String := "budget"
  reductive_phase_model_tier : String := "budget"
  additive_phase_allowed_changes : String := ""
  reductive_phase_allowed_changes : String := ""
  additive_prompt_template : String := ""
  reductive_prompt_template : String := ""
  current_output : String := ""
  history : List IterationRecord := []
  deriving Repr, DecidableEq

/-! ## formats.py — static format guidance lookup -/

/-- Guidance text for JSON outputs. -/
def guidanceJSON : String :=
  "Output format guidance: return valid JSON only.\n" ++
  "Do not include markdown fences or explanatory text.\n" ++
  "Ensure keys and string values are properly quoted."

/-- Guidance text for Markdown outputs. -/
def guidanceMarkdown : String :=
  "Output format guidance: return clear Markdown.\n" ++
  "Use concise headings and bullet lists where helpful.\n" ++
  "Avoid code fences unless code is explicitly requested."

/-- Guidance text for Python outputs. -/
def guidancePython : String :=
  "Output format guidance: return syntactically valid Python code.\n" ++
  "Keep code runnable and avoid explanatory prose outside comments.\n" ++
  "Use explicit imports when needed."

/-- Guidance text for plain-text outputs. -/
def guidanceText : String :=
  "Output format guidance: return plain text only.\n" ++
  "Keep structure readable with short paragraphs or numbered lines.\n" ++
  "Avoid markdown syntax unless requested."

/-- Return normalized guidance text for the selected output format; blank
and unknown names resolve to the Text guidance. -/
def getFormatGuidance (format_name : String) : String :=
  let normalized := upperStr (pyStrip (if format_name = "" then "Text" else format_name))
  if normalized = "JSON" then guidanceJSON
  else if normalized = "MARKDOWN" then guidanceMarkdown
  else if normalized = "PYTHON" then guidancePython
  else if normalized = "TEXT" then guidanceText
  else guidanceText

/-! ## prompt_templates.py — token vocabulary, context, rendering -/

/-- The fixed token vocabulary supported by the template renderer. -/
def SUPPORTED_TOKENS : List String :=
  ["OUTCOME", "REQUIREMENTS", "SPECIAL_RESOURCES", "FORMAT", "FORMAT_GUIDANCE",
   "PHASE_RULES", "CURRENT_OUTPUT", "ITERATION_INDEX", "PHASE_NAME"]

/-- Build a canonical render context from state and phase metadata.  The
Python dict maps every supported token to a string (ints are rendered via
`str` by the substitution), modelled as a total lookup function. -/
def buildContext (state : ProjectState) (phase_name : String) (iteration_index : Int) :
    String → String := fun token =>
  if token = "OUTCOME" then state.outcome
  else if token = "REQUIREMENTS" then state.requirements_constraints
  else if token = "SPECIAL_RESOURCES" then state.special_resources
  else if token = "FORMAT" then state.output_format
  else if token = "FORMAT_GUIDANCE" then
    getFormatGuidance (if state.output_format = "" then "Text" else state.output_format)
  else if token = "PHASE_RULES" then
    (if phase_name = "additive" then state.additive_phase_allowed_changes
     else if phase_name = "reductive" then state.reductive_phase_allowed_changes
     else "")
  else if token = "CURRENT_OUTPUT" then state.current_output
  else if token = "ITERATION_INDEX" then toString iteration_index
  else if token = "PHASE_NAME" then phase_name
  else ""

/-- Render known tokens from context and leave unknown tokens unchanged. -/
def renderTemplate (template_text : String) (context : String → String) : String :=
  substTokens
    (fun name => if name ∈ SUPPORTED_TOKENS then some (context name) else none)
    template_text

/-! ## validators.py — structural validators -/

/-- Normalized validator response for output-structure checks. -/
structure ValidationResult where
  ok : Bool
  message : String
  applicable : Bool
  format_name : String
  deriving Repr, DecidableEq

/-- Whitespace characters skipped by the JSON grammar. -/
def isJsonWs (c : Char) : Bool :=
  c = ' ' || c = '\t' || c = '\n' || c = '\r'

/-- Skip JSON whitespace. -/
def skipJsonWs : List Char → List Char
  | [] => []
  | c :: r => if isJsonWs c then skipJsonWs r else c :: r

/-- Decimal digit test for the JSON number grammar. -/
def isJsonDigit (c : Char) : Bool :=
  '0' ≤ c && c ≤ '9'

/-- Take the maximal digit run from the front of a list. -/
def takeDigits : List Char → List Char × List Char
  | [] => ([], [])
  | c :: r =>
    if isJsonDigit c then
      let p := takeDigits r
      (c :: p.1, p.2)
    else ([], c :: r)

/-- Parse a JSON number (per the number regex of the json module,
including the optional fraction and exponent); returns the rest. -/
def parseJsonNumber (cs : List Char) : Option (List Char) :=
  let body := fun (cs1 : List Char) =>
    match cs1 with
    | [] => none
    | c :: r =>
      if c = '0' then some r
      else if '1' ≤ c && c ≤ '9' then some (takeDigits r).2
      else none
  let afterInt :=
    match cs with
    | c :: r => if c = '-' then body r else body cs
    | [] => none
  match afterInt with
  | none => none
  | some rest1 =>
    let afterFrac :=
      match rest1 with
      | c :: r =>
        if c = '.' then
          let p := takeDigits r
          if p.1 = [] then none else some p.2
        else some rest1
      | [] => some rest1
    match afterFrac with
    | none => none
    | some rest2 =>
      match rest2 with
      | c :: r =>
        if c = 'e' ∨ c = 'E' then
          let r1 := match r with
                    | d :: r2 => if d = '+' ∨ d = '-' then r2 else r
                    | [] => r
          let p := takeDigits r1
          if p.1 = [] then none else some p.2
        else some rest2
      | [] => some rest2

/-- Hexadecimal digit test for JSON unicode escapes. -/
def isHexDigit (c : Char) : Bool :=
  isJsonDigit c || ('a' ≤ c && c ≤ 'f') || ('A' ≤ c && c ≤ 'F')

/-- Fuel-driven JSON parser.  `mode 0` parses one value; `mode 1` parses
an object body after the opening brace with whitespace skipped; `mode 2`
parses an array body; `mode 3` parses the remainder of a string literal
after the opening quote.  Returns the unconsumed rest on success.  The
fuel is generous (consumed once per step) and set from the input size at
the entry point; the parser models the acceptance behaviour of Python's
`json.loads` (strict mode). -/
def parseJson : Nat → Nat → List Char → Option (List Char)
  | 0, _, _ => none
  | fuel + 1, 0, cs =>
    (match cs with
     | [] => none
     | c :: r =>
       if c = '"' then parseJson fuel 3 r
       else if c = lb then parseJson fuel 1 (skipJsonWs r)
       else if c = '[' then parseJson fuel 2 (skipJsonWs r)
       else if startsWithList "true".data cs then some (cs.drop 4)
       else if startsWithList "false".data cs then some (cs.drop 5)
       else if startsWithList "null".data cs then some (cs.drop 4)
       else if startsWithList "NaN".data cs then some (cs.drop 3)
       else if startsWithList "Infinity".data cs then some (cs.drop 8)
       else if startsWithList "-Infinity".data cs then some (cs.drop 9)
       else parseJsonNumber cs)
  | fuel + 1, 1, cs =>
    (match cs with
     | [] => none
     | c :: r =>
       if c = rb then some r
       else if c = '"' then
         match parseJson fuel 3 r with
         | none => none
         | some afterKey =>
           match skipJsonWs afterKey with
           | ':' :: r2 =>
             match parseJson fuel 0 (skipJsonWs r2) with
             | none => none
             | some afterVal =>
               match skipJsonWs afterVal with
               | ',' :: r3 =>
                 match skipJsonWs r3 with
                 | '"' :: r4 =>
                   -- continue with the next member (keys must be strings)
                   parseJson fuel 1 ('"' :: r4)
                 | _ => none
               | d :: r3 => if d = rb then some r3 else none
               | [] => none
           | _ => none
       else none)
  | fuel + 1, 2, cs =>
    (match cs with
     | [] => none
     | c :: r =>
       if c = ']' then some r
       else
         match parseJson fuel 0 cs with
         | none => none
         | some afterVal =>
           match skipJsonWs afterVal with
           | ',' :: r2 =>
             (match skipJsonWs r2 with
              | ']' :: _ => none
              | cs2 => parseJson fuel 2 cs2)
           | ']' :: r2 => some r2
           | _ => none)
  | fuel + 1, _, cs =>
    (match cs with
     | [] => none
     | c :: r =>
       if c = '"' then some r
       else if c = '\\' then
         match r with
         | [] => none
         | e :: r2 =>
           if e = '"' ∨ e = '\\' ∨ e = '/' ∨ e = 'b' ∨ e = 'f' ∨ e = 'n' ∨ e = 'r' ∨ e = 't' then
             parseJson fuel 3 r2
           else if e = 'u' then
             match r2 with
             | h1 :: h2 :: h3 :: h4 :: r3 =>
               if isHexDigit h1 && isHexDigit h2 && isHexDigit h3 && isHexDigit h4 then
                 parseJson fuel 3 r3
               else none
             | _ => none
           else none
       else if c.toNat < 32 then none  -- strict mode rejects raw control chars
       else parseJson fuel 3 r)

/-- Validate that text is syntactically valid JSON.  Acceptance models
`json.loads`; the embedded failure message is a fixed summary because the
engine-level claims depend only on the verdict, not on the reported
line/column text. -/
def validateJson (text : String) : ValidationResult :=
  let cs := skipJsonWs text.data
  match parseJson (4 * cs.length + 16) 0 cs with
  | some rest =>
    if skipJsonWs rest = [] then
      { ok := true, message := "Valid JSON.", applicable := true, format_name := "JSON" }
    else
      { ok := false, message := "Invalid JSON: syntax error at reported line and column.",
        applicable := true, format_name := "JSON" }
  | none =>
    { ok := false, message := "Invalid JSON: syntax error at reported line and column.",
      applicable := true, format_name := "JSON" }

/-- Validate that text is syntactically valid Python code.  The source
delegates to CPython's `ast.parse`, an external parser that is not part
of this repository; only the boolean verdict flows into the engine, and
no claim exercises the Python format, so the verdict is modelled as
acceptance. -/
def validatePython (_text : String) : ValidationResult :=
  { ok := true, message := "Valid Python syntax.", applicable := true, format_name := "PYTHON" }

/-- Run the applicable structural validator for a selected output format. -/
def validateForFormat (text output_format : String) : ValidationResult :=
  let normalized := upperStr (pyStrip output_format)
  if normalized = "JSON" then validateJson text
  else if normalized = "PYTHON" then validatePython text
  else
    { ok := true
      message := "Validation not applicable for format " ++
        (if normalized = "" then "TEXT" else normalized) ++ "."
      applicable := false
      format_name := if normalized = "" then "TEXT" else normalized }

/-! ## llm_client.py — response and error contracts (data part) -/

/-- Normalized response contract for generation calls. -/
structure LLMResponse where
  text : String
  model_used : String
  request_id : Option String := none
  usage_input_tokens : Option Int := none
  usage_output_tokens : Option Int := none
  deriving Repr, DecidableEq

/-- Normalized error carrying a user-readable message and category.  The
category is a plain string, as in the Python `Literal` type. -/
structure LLMErr where
  message : String
  category : String
  deriving Repr, DecidableEq

/-! ## engine.py — planning semantics (pure part) -/

/-- The fixed additive/reductive phase alternation. -/
def PHASE_SEQUENCE : List String := ["additive", "reductive"]

/-- Run options for planning and execution stages of the engine. -/
structure RunOptions where
  iterations_override : Option Int := none
  deriving Repr, DecidableEq

/-- Raw iteration count before the minimum check: the override when both
the options object and the override are present, the state field else. -/
def resolveIterationsRaw (state : ProjectState) (options : Option RunOptions) : Int :=
  match options with
  | some o =>
    match o.iterations_override with
    | some v => v
    | none => state.iterations
  | none => state.iterations

/-- Resolve iteration count from state + options and enforce the minimum. -/
def normalizeIterations (state : ProjectState) (options : Option RunOptions) :
    Except String Int :=
  let iterations := resolveIterationsRaw state options
  if iterations < 1 then Except.error "Iterations must be >= 1."
  else Except.ok iterations

/-- Return a copy of ProjectState with normalized run options applied; the
history list is freshly copied record by record through the constructor. -/
def applyRunOptionsPure (state : ProjectState) (options : Option RunOptions) :
    Except String ProjectState := do
  let normalized ← normalizeIterations state options
  Except.ok
    { schema_version := state.schema_version
      outcome := state.outcome
      requirements_constraints := state.requirements_constraints
      special_resources := state.special_resources
      iterations := normalized
      output_format := state.output_format
      additive_phase_allowed_changes := state.additive_phase_allowed_changes
      reductive_phase_allowed_changes := state.reductive_phase_allowed_changes
      additive_prompt_template := state.additive_prompt_template
      reductive_prompt_template := state.reductive_prompt_template
      current_output := state.current_output
      history := state.history.map copyRecord }

/-- Inner planning loop of `plan_steps`: for each remaining iteration
append the additive and the reductive planned record, with the running
pair number and the running global step counter (the two-element
`PHASE_SEQUENCE` inner loop of the source is unrolled). -/
def planStepsLoop : Nat → Int → Int → List IterationRecord
  | 0, _, _ => []
  | m + 1, iteration_index, phase_step_index =>
    mkIterationRecord
      { event_type := HISTORY_EVENT_PHASE_STEP
        iteration_index := iteration_index
        pair_index := iteration_index
        phase_step_index := phase_step_index + 1
        phase_name := "additive" } ::
    mkIterationRecord
      { event_type := HISTORY_EVENT_PHASE_STEP
        iteration_index := iteration_index
        pair_index := iteration_index
        phase_step_index := phase_step_index + 2
        phase_name := "reductive" } ::
    planStepsLoop m (iteration_index + 1) (phase_step_index + 2)

/-- Plan phase steps for the configured number of iterations. -/
def planSteps (state : ProjectState) (options : Option RunOptions) :
    Except String (List IterationRecord) := do
  let planned_state ← applyRunOptionsPure state options
  Except.ok (planStepsLoop planned_state.iterations.toNat 1 0)

/-- Return additive/reductive phase-step records in stored order. -/
def phaseStepHistory (records : List IterationRecord) : List IterationRecord :=
  records.filter fun record =>
    record.event_type = HISTORY_EVENT_PHASE_STEP && PHASE_SEQUENCE.contains record.phase_name

/-- Next phase name, iteration index and phase step index, purely from
the count of phase-step records in the history. -/
def nextPhaseMetadata (history : List IterationRecord) : String × Nat × Nat :=
  let phase_records := phaseStepHistory history
  let next_phase_step_index := phase_records.length + 1
  let next_iteration_index := (next_phase_step_index + 1) / 2
  let next_phase_name := PHASE_SEQUENCE.getD ((next_phase_step_index - 1) % PHASE_SEQUENCE.length) ""
  (next_phase_name, next_iteration_index, next_phase_step_index)

/-- Select the stored template of a phase; a blank template is a domain
error and an unknown phase name is a programming error. -/
def templateForPhase (state : ProjectState) (phase_name : String) : Except String String :=
  match
    (if phase_name = "additive" then Except.ok state.additive_prompt_template
     else if phase_name = "reductive" then Except.ok state.reductive_prompt_template
     else Except.error ("Unsupported phase name: " ++ phase_name) :
      Except String String) with
  | Except.error e => Except.error e
  | Except.ok template_text =>
    if pyStrip template_text = "" then
      Except.error (phase_name.capitalize ++ " prompt template is empty.")
    else Except.ok template_text

/-- Does the template already mention the output format (by token or by
literal name, compared upper-cased)? -/
def templateMentionsFormat (template_text output_format : String) : Bool :=
  let normalized_template := upperStr template_text
  let normalized_format := upperStr (pyStrip output_format)
  if strContains normalized_template "\x7b\x7bFORMAT\x7d\x7d" ||
     strContains normalized_template "\x7b\x7bFORMAT_GUIDANCE\x7d\x7d" then true
  else if normalized_format ≠ "" && strContains normalized_template normalized_format then true
  else false

/-- Build the one-shot repair prompt embedding format, error and text. -/
def buildRepairPrompt (output_text output_format validation_message : String) : String :=
  let pre := pyStrip (if output_format = "" then "TEXT" else output_format)
  let normalized_format := if pre = "" then "TEXT" else pre
  let guidance := getFormatGuidance normalized_format
  "The output below failed structural validation.\n" ++
  "Target format: " ++ normalized_format ++ "\n" ++
  "Validation error: " ++ validation_message ++ "\n\n" ++
  "Rewrite the output to preserve the same content intent while fixing structure.\n" ++
  "Return only the repaired output.\n\n" ++
  guidance ++ "\n\n" ++
  "Original output:\n" ++
  output_text

/-! ## engine.py — heap model for the mutating execution path

`run_next_step` mutates only the state object freshly produced by
`apply_run_options` and the fresh history list inside it.  To make the
spec's frame/ownership guarantee ("the engine never mutates a
caller-supplied ProjectState in place") a real statement, state objects
and history lists live in an explicit heap addressed by `Nat`; creating
a Python object or list allocates a fresh address, and attribute
assignment / `list.append` update the heap at the stored address. -/

/-- A heap-resident ProjectState object: the scalar fields plus the heap
address of its (separately allocated) history list object. -/
structure PSObj where
  schema_version : Int := 1
  outcome : String := ""
  requirements_constraints : String := ""
  special_resources : String := ""
  iterations : Int := 1
  output_format : String := "Markdown"
  additive_phase_allowed_changes : String := ""
  reductive_phase_allowed_changes : String := ""
  additive_prompt_template : String := ""
  reductive_prompt_template : String := ""
  current_output : String := ""
  historyRef : Nat := 0
  deriving Repr, DecidableEq

/-- The explicit heap: ProjectState objects and history-list objects. -/
structure EngineHeap where
  ps : List PSObj
  lists : List (List IterationRecord)
  deriving Repr, DecidableEq

/-- View a heap object together with its history list as a state value. -/
def PSObj.toState (obj : PSObj) (hist : List IterationRecord) : ProjectState :=
  { schema_version := obj.schema_version
    outcome := obj.outcome
    requirements_constraints := obj.requirements_constraints
    special_resources := obj.special_resources
    iterations := obj.iterations
    output_format := obj.output_format
    additive_phase_allowed_changes := obj.additive_phase_allowed_changes
    reductive_phase_allowed_changes := obj.reductive_phase_allowed_changes
    additive_prompt_template := obj.additive_prompt_template
    reductive_prompt_template := obj.reductive_prompt_template
    current_output := obj.current_output
    history := hist }

/-- Build a heap object from a state value and a history-list address. -/
def PSObj.ofState (s : ProjectState) (ref : Nat) : PSObj :=
  { schema_version := s.schema_version
    outcome := s.outcome
    requirements_constraints := s.requirements_constraints
    special_resources := s.special_resources
    iterations := s.iterations
    output_format := s.output_format
    additive_phase_allowed_changes := s.additive_phase_allowed_changes
    reductive_phase_allowed_changes := s.reductive_phase_allowed_changes
    additive_prompt_template := s.additive_prompt_template
    reductive_prompt_template := s.reductive_prompt_template
    current_output := s.current_output
    historyRef := ref }

/-- Read the state value stored at a heap address. -/
def EngineHeap.readState (h : EngineHeap) (a : Nat) : Option ProjectState :=
  match h.ps.get? a with
  | none => none
  | some obj =>
    match h.lists.get? obj.historyRef with
    | none => none
    | some hist => some (obj.toState hist)

/-- Update the element at an index when it exists (no-op otherwise). -/
def listModify (l : List α) (i : Nat) (f : α → α) : List α :=
  match l.get? i with
  | some x => l.set i (f x)
  | none => l

/-- Attribute assignment on the object at a heap address. -/
def EngineHeap.modifyObj (h : EngineHeap) (a : Nat) (f : PSObj → PSObj) : EngineHeap :=
  { h with ps := listModify h.ps a f }

/-- `history.append` on the list object referenced by the object at `a`. -/
def EngineHeap.appendAt (h : EngineHeap) (a : Nat) (r : IterationRecord) : EngineHeap :=
  match h.ps.get? a with
  | some obj => { h with lists := listModify h.lists obj.historyRef (fun l => l ++ [r]) }
  | none => h

/-- Allocate a fresh state object together with a fresh history list. -/
def EngineHeap.alloc (h : EngineHeap) (s : ProjectState) : EngineHeap × Nat :=
  let listAddr := h.lists.length
  ({ ps := h.ps ++ [PSObj.ofState s listAddr], lists := h.lists ++ [s.history] },
   h.ps.length)

/-- Heap-level `apply_run_options`: read the caller's state, build the
normalized copy (with a freshly copied history list) and allocate it. -/
def applyRunOptionsH (h : EngineHeap) (a : Nat) (options : Option RunOptions) :
    Except String (EngineHeap × Nat) := do
  match h.readState a with
  | none => Except.error "invalid state reference"
  | some state => do
    let next_state ← applyRunOptionsPure state options
    Except.ok (h.alloc next_state)

/-- The phase-step history record appended by `run_next_step`. -/
def buildPhaseStepRecord (phase_name : String) (iteration_index phase_step_index : Nat)
    (result : LLMResponse) (validation : ValidationResult) (prompt_rendered : String) :
    IterationRecord :=
  mkIterationRecord
    { event_type := HISTORY_EVENT_PHASE_STEP
      iteration_index := Int.ofNat iteration_index
      pair_index := Int.ofNat iteration_index
      phase_step_index := Int.ofNat phase_step_index
      phase_name := phase_name
      model_used := result.model_used
      note_summary := if validation.applicable then validation.message else ""
      prompt_rendered := prompt_rendered
      output_snapshot := result.text }

/-- The one-shot structural repair (`_attempt_structural_repair`): the
budget-tier repair call's response is passed in; returns the text to
adopt and the repair history record. -/
def attemptStructuralRepair (repair_result : LLMResponse)
    (output_text output_format validation_message : String) : String × IterationRecord :=
  let repair_prompt := buildRepairPrompt output_text output_format validation_message
  let repaired_validation := validateForFormat repair_result.text output_format
  if repaired_validation.ok then
    (repair_result.text,
     makeRepairEvent repair_result.model_used
       ("Repair succeeded: " ++ repaired_validation.message)
       repair_prompt repair_result.text)
  else
    (output_text,
     makeRepairEvent repair_result.model_used
       ("Repair attempted but output is still invalid: " ++ repaired_validation.message)
       repair_prompt repair_result.text)

/-- Heap-level `run_next_step`.  The LLM client stub is the sequence of
responses `llm 0, llm 1, …`; `n` is the number of `generate_text` calls
already made, so the step's main generation is `llm n` and a repair
attempt, when triggered, is `llm (n+1)`.  Returns the heap, the address
of the newly allocated result state, and the updated call count. -/
def runNextStepH (h : EngineHeap) (a : Nat) (llm : Nat → LLMResponse) (n : Nat) :
    Except String (EngineHeap × Nat × Nat) := do
  match h.readState a with
  | none => Except.error "invalid state reference"
  | some state => do
    let md := nextPhaseMetadata state.history
    let phase_name := md.1
    let iteration_index := md.2.1
    let phase_step_index := md.2.2
    let template_text ← templateForPhase state phase_name
    let context := buildContext state phase_name (Int.ofNat iteration_index)
    let rendered := renderTemplate template_text context
    let prompt_rendered :=
      if ¬ templateMentionsFormat template_text state.output_format then
        getFormatGuidance state.output_format ++ "\n\n" ++ rendered
      else rendered
    let result := llm n
    let validation := validateForFormat result.text state.output_format
    let pair ← applyRunOptionsH h a none
    let h1 := pair.1
    let b := pair.2
    let h2 := h1.modifyObj b fun o => { o with current_output := result.text }
    let stepRecord :=
      buildPhaseStepRecord phase_name iteration_index phase_step_index result validation
        prompt_rendered
    let h3 := h2.appendAt b stepRecord
    if validation.applicable && !validation.ok then
      let adopted :=
        attemptStructuralRepair (llm (n + 1)) result.text state.output_format
          validation.message
      let h4 := h3.modifyObj b fun o => { o with current_output := adopted.1 }
      let h5 := h4.appendAt b adopted.2
      Except.ok (h5, b, n + 2)
    else
      Except.ok (h3, b, n + 1)

/-- Step loop of `run_iterations`: cooperative cancellation is checked
before each step (the predicate sees the number of completed steps). -/
def runIterationsLoop (llm : Nat → LLMResponse) (should_stop : Nat → Bool) :
    Nat → EngineHeap → Nat → Nat → Nat →
    Except String (EngineHeap × Nat × Nat × Nat × Bool)
  | 0, h, b, n, completed => Except.ok (h, b, n, completed, false)
  | m + 1, h, b, n, completed =>
    if should_stop completed then Except.ok (h, b, n, completed, true)
    else do
      let step ← runNextStepH h b llm n
      runIterationsLoop llm should_stop m step.1 step.2.1 step.2.2 (completed + 1)

/-- Heap-level `run_iterations`: run up to `iterations × 2` phase steps. -/
def runIterationsH (h : EngineHeap) (a : Nat) (iterations : Option Int)
    (llm : Nat → LLMResponse) (should_stop : Nat → Bool) (n : Nat) :
    Except String (EngineHeap × Nat × Nat × Nat × Bool) := do
  match h.readState a with
  | none => Except.error "invalid state reference"
  | some state => do
    let target := match iterations with | some v => v | none => state.iterations
    if target < 1 then Except.error "iterations must be >= 1"
    else do
      let steps_target := target.toNat * PHASE_SEQUENCE.length
      let pair ← applyRunOptionsH h a none
      let h1 := pair.1
      let b := pair.2
      let h2 := h1.modifyObj b fun o => { o with iterations := target }
      runIterationsLoop llm should_stop steps_target h2 b n 0

/-! ## history_restore.py -/

/-- Restore output from a selected history record and append a restore
event; the caller's list is copied record by record first. -/
def restoreHistorySnapshot (history_records : List IterationRecord) (record_index : Int) :
    Except String (String × List IterationRecord) :=
  if record_index < 0 ∨ record_index ≥ Int.ofNat history_records.length then
    Except.error "record_index is out of range."
  else
    let next_history := history_records.map copyRecord
    let selected := next_history.getD record_index.toNat {}
    let restored_output := selected.output_snapshot
    let restore_note := "Restored from history entry " ++ toString (record_index + 1) ++ "."
    Except.ok (restored_output, next_history ++ [makeRestoreEvent restore_note restored_output])

/-! ## persistence.py — schema-versioned JSON document

The serialized document is modelled at the field level: an optional value
per top-level key (absence of a key is `none`); history items carry all
record fields, as `record.__dict__` does. -/

/-- A project JSON document with optional top-level fields. -/
structure PersistPayload where
  schema_version : Option Int := none
  project_title : Option String := none
  outcome : Option String := none
  requirements_constraints : Option String := none
  special_resources : Option String := none
  iterations : Option Int := none
  output_format : Option String := none
  additive_phase_model_tier : Option String := none
  reductive_phase_model_tier : Option String := none
  additive_phase_allowed_changes : Option String := none
  reductive_phase_allowed_changes : Option String := none
  additive_prompt_template : Option String := none
  reductive_prompt_template : Option String := none
  current_output : Option String := none
  history : Option (List IterationRecord) := none
  deriving Repr, DecidableEq

/-- Serialize a state into the JSON document (every field written). -/
def serializeState (state : PersistedProjectState) : PersistPayload :=
  { schema_version := some state.schema_version
    project_title := some state.project_title
    outcome := some state.outcome
    requirements_constraints := some state.requirements_constraints
    special_resources := some state.special_resources
    iterations := some state.iterations
    output_format := some state.output_format
    additive_phase_model_tier := some state.additive_phase_model_tier
    reductive_phase_model_tier := some state.reductive_phase_model_tier
    additive_phase_allowed_changes := some state.additive_phase_allowed_changes
    reductive_phase_allowed_changes := some state.reductive_phase_allowed_changes
    additive_prompt_template := some state.additive_prompt_template
    reductive_prompt_template := some state.reductive_prompt_template
    current_output := some state.current_output
    history := some state.history }

/-- Deserialize a document: schema_version is required and must be the
supported value 1; missing optional fields take the documented defaults;
each history item is re-constructed through the record constructor. -/
def deserializeState (payload : PersistPayload) : Except String PersistedProjectState :=
  match payload.schema_version with
  | none => Except.error "Project file is missing required field: schema_version"
  | some schema_version =>
    if schema_version ≠ 1 then
      Except.error ("Unsupported schema_version=" ++ toString schema_version ++
        "; supported versions: 1")
    else
      Except.ok
        { schema_version := schema_version
          project_title := payload.project_title.getD ""
          outcome := payload.outcome.getD ""
          requirements_constraints := payload.requirements_constraints.getD ""
          special_resources := payload.special_resources.getD ""
          iterations := payload.iterations.getD 1
          output_format := payload.output_format.getD "Markdown"
          additive_phase_model_tier := payload.additive_phase_model_tier.getD "budget"
          reductive_phase_model_tier := payload.reductive_phase_model_tier.getD "budget"
          additive_phase_allowed_changes := payload.additive_phase_allowed_changes.getD ""
          reductive_phase_allowed_changes := payload.reductive_phase_allowed_changes.getD ""
          additive_prompt_template := payload.additive_prompt_template.getD ""
          reductive_prompt_template := payload.reductive_prompt_template.getD ""
          current_output := payload.current_output.getD ""
          history := (payload.history.getD []).map mkIterationRecord }

/-! ## prompt_architect.py — quality gate and deterministic fallback -/

/-- The two phase kinds accepted by the architect; every public caller
rejects other phase names before reaching these helpers, so the guarded
domain is modelled as an enumeration. -/
inductive Phase where
  | additive
  | reductive
  deriving Repr, DecidableEq

/-- Phase name string of a phase. -/
def Phase.name : Phase → String
  | .additive => "additive"
  | .reductive => "reductive"

/-- Modelled from the spec: `EMPTY_CURRENT_OUTPUT_PLACEHOLDER` is
imported from prompt_templates.py but not declared in the checked-in
source; the spec only requires a literal placeholder marker injected when
there is no draft yet, modelled here by a fixed brace-free literal. -/
def EMPTY_CURRENT_OUTPUT_PLACEHOLDER : String := "(empty)"

/-- Fixed list of low-quality markers rejected by the quality gate. -/
def LOW_QUALITY_MARKERS : List String :=
  ["original content missing",
   "original content was not provided",
   "paste the content to rewrite",
   "paste content to rewrite",
   "paste the text you want rewritten",
   "provide the content to rewrite",
   "text you want rewritten",
   "input missing",
   "tagged layout",
   "template generation returned empty content"]

/-- Python `str.splitlines` body: split at LF, CR and CRLF. -/
def splitLinesGo (cur : List Char) : List Char → List (List Char)
  | [] => [cur]
  | '\n' :: r => cur :: splitLinesGo [] r
  | '\r' :: '\n' :: r => cur :: splitLinesGo [] r
  | '\r' :: r => cur :: splitLinesGo [] r
  | c :: r => splitLinesGo (cur ++ [c]) r

/-- Python `str.splitlines` (ASCII terminators). -/
def splitLines (s : String) : List String :=
  match s.data with
  | [] => []
  | c :: r =>
    let parts := (splitLinesGo [] (c :: r)).map String.mk
    match s.data.getLast? with
    | some last => if last = '\n' ∨ last = '\r' then parts.dropLast else parts
    | none => parts

/-- Strip one leading/trailing code-fence pair from the stripped text. -/
def stripCodeFences (text : String) : String :=
  let stripped := pyStrip text
  let lines := splitLines stripped
  if lines.length ≥ 2 ∧ strStartsWith (pyStrip (lines.headD "")) "```" ∧ pyStrip (lines.getLastD "") = "```"
  then pyStrip (String.intercalate "\n" (lines.drop 1).dropLast)
  else stripped

/-- Does the lower-cased text contain any low-quality marker? -/
def containsLowQualityMarkers (text : String) : Bool :=
  LOW_QUALITY_MARKERS.any fun marker => strContains (lowerStr text) marker

/-- Lines whose stripped lower-cased text mentions empty/non-empty
branching over the current output are removed. -/
def blockedBranchingMarkers : List String :=
  ["if \x7b\x7bcurrent_output\x7d\x7d is empty",
   "if \x7b\x7bcurrent_output\x7d\x7d is non-empty",
   "if \x7b\x7bcurrent_output\x7d\x7d is nonempty",
   "if current_output is empty",
   "if current_output is non-empty",
   "if current_output is nonempty"]

/-- Remove residual empty/non-empty branching lines and re-join. -/
def removeEmptyBranchingLines (text : String) : String :=
  let kept := (splitLines text).filter fun line =>
    ¬ blockedBranchingMarkers.any fun marker => strContains (lowerStr (pyStrip line)) marker
  pyStrip (String.intercalate "\n" kept)

/-- Phase rules text for the requested phase. -/
def phaseRulesFor (state : ProjectState) : Phase → String
  | .additive => pyStrip state.additive_phase_allowed_changes
  | .reductive => pyStrip state.reductive_phase_allowed_changes

/-- Replace recognized tokens that leaked through with the literal
project values, keeping `CURRENT_OUTPUT` live and unknown tokens as-is. -/
def replaceKnownTokens (state : ProjectState) (phase : Phase) (format_target : String)
    (template_text : String) : String :=
  substTokens
    (fun token =>
      if token = "CURRENT_OUTPUT" then none
      else if token = "OUTCOME" then some (pyStrip state.outcome)
      else if token = "REQUIREMENTS" then some (pyStrip state.requirements_constraints)
      else if token = "SPECIAL_RESOURCES" then some (pyStrip state.special_resources)
      else if token = "FORMAT" then some format_target
      else if token = "FORMAT_GUIDANCE" then some (getFormatGuidance format_target)
      else if token = "PHASE_RULES" then some (phaseRulesFor state phase)
      else if token = "PHASE_NAME" then some phase.name
      else none)
    template_text

/-- The canonical block appended when the live token is missing. -/
def currentDraftBlock : String :=
  "\n\nCurrent draft:\n\x7b\x7bCURRENT_OUTPUT\x7d\x7d"

/-- The literal live token. -/
def currentOutputToken : String := "\x7b\x7bCURRENT_OUTPUT\x7d\x7d"

/-- Deterministic fully-specified fallback template built directly from
project fields (no LLM call). -/
def buildFallbackTemplate (state : ProjectState) (phase : Phase) (format_target : String) :
    String :=
  let outcome := if pyStrip state.outcome = "" then "(No outcome provided.)" else pyStrip state.outcome
  let requirements := pyStrip state.requirements_constraints
  let resources := pyStrip state.special_resources
  let phase_rules := phaseRulesFor state phase
  let phase_instruction :=
    match phase with
    | .additive =>
      "Make two to four of the most significant improvements. " ++
      "The literal marker \x27" ++ EMPTY_CURRENT_OUTPUT_PLACEHOLDER ++
      "\x27 means there is no prior draft yet."
    | .reductive =>
      "Make two to four of the most significant improvements by removing, rebalancing, or simplifying. " ++
      "Avoid net-new additions unless a constraint requires them. " ++
      "Assume this phase operates on an existing additive draft."
  let lines :=
    ["Before writing, infer and adopt the ideal expert role profile for this objective.",
     "Choose the disciplines and depth that best fit the task.",
     "",
     "Objective:",
     outcome]
    ++ (if requirements ≠ "" then ["", "Requirements and constraints:", requirements] else [])
    ++ (if resources ≠ "" then ["", "Special resources that may help (not mandatory):", resources] else [])
    ++ ["", "Target output format: " ++ format_target, getFormatGuidance format_target]
    ++ (if phase_rules ≠ "" then ["", "Allowed changes for this phase:", phase_rules] else [])
    ++ ["", phase_instruction, "", "Current draft:", currentOutputToken, "",
        "Return only the final output in the target format and no explanatory text."]
  pyStrip (String.intercalate "\n" lines)

/-- Post-generation quality gate: clean the raw model output, fall back
when it is empty, low quality or still references disallowed tokens, and
guarantee the live token is present in the final text. -/
def finalizeGeneratedTemplate (raw_text : String) (state : ProjectState) (phase : Phase)
    (format_target : String) : String :=
  let cleaned0 := pyStrip (replaceKnownTokens state phase format_target (stripCodeFences raw_text))
  let cleaned := removeEmptyBranchingLines cleaned0
  if cleaned = "" ∨ containsLowQualityMarkers cleaned then
    buildFallbackTemplate state phase format_target
  else
    let remaining_tokens := (findTokensList cleaned).filter fun t => t ≠ "CURRENT_OUTPUT"
    if remaining_tokens ≠ [] then
      buildFallbackTemplate state phase format_target
    else if ¬ strContains cleaned currentOutputToken then
      cleaned ++ currentDraftBlock
    else cleaned

/-- One phase-template generation with fallback: the LLM call outcome is
either the raw generated text or a client error; an error is converted
into the deterministic fallback plus a note recording the category. -/
def generatePhaseTemplateWithFallback (llm_outcome : Except LLMErr String)
    (state : ProjectState) (phase : Phase) (format_target : String) : String × String :=
  match llm_outcome with
  | Except.ok raw =>
    (finalizeGeneratedTemplate raw state phase format_target, phase.name ++ ": generated")
  | Except.error e =>
    (buildFallbackTemplate state phase format_target,
     phase.name ++ ": fallback (" ++ e.category ++ ")")

/-! ## llm_client.py — generate_text control flow against a stub backend

Each actual API invocation of the stubbed backend is one element of the
sequence `backend 0, backend 1, …`; an element is either a completion or
one of the exception kinds raised by the OpenAI SDK.  Sleeps are recorded
in units of the 0.4-second base delay, so a backoff sleep before retry
number `attempt + 1` is recorded as `attempt + 1`. -/

/-- Outcome of one backend invocation of the stub. -/
inductive BackendResult where
  | success (text : String)
  | authError
  | badRequest (msg : String)
  | rateLimit
  | connection
  | status (code : Option Int)
  | typeErr (msg : String)
  | otherExc
  deriving Repr, DecidableEq

/-- The tier literal type. -/
inductive ModelTier where
  | budget
  | premium
  deriving Repr, DecidableEq

/-- Resolve a model name from tier selection and optional override (a
`None` or empty override is falsy and ignored). -/
def resolveModel (budget_model premium_model : String) (tier : ModelTier)
    (model_override : Option String) : String :=
  match model_override with
  | some m => if m ≠ "" then m else (match tier with | .budget => budget_model | .premium => premium_model)
  | none => match tier with | .budget => budget_model | .premium => premium_model

/-- Best-effort detection for Chat Completions web-search models. -/
def supportsChatWebSearch (model : String) : Bool :=
  let normalized := lowerStr (pyStrip model)
  normalized = "gpt-5-search-api" || strEndsWith normalized "-search-preview"

/-- Result of the inner request-shape adaptation loop: a completion, an
exception escaping to the outer handlers, or the four shape attempts
exhausted without a completion; each carries the invocation count. -/
inductive InnerOut where
  | success (text : String) (k : Nat)
  | exc (e : BackendResult) (k : Nat)
  | exhausted (k : Nat)
  deriving Repr, DecidableEq

/-- The inner request-shape adaptation loop (at most four invocations per
outer attempt).  `tfMCT` is true while the token field is
`max_completion_tokens`; `inclTemp` / `inclWS` track whether temperature
and web-search options are still included. -/
def innerLoop (backend : Nat → BackendResult) :
    Nat → Nat → Bool → Bool → Bool → InnerOut
  | 0, k, _, _, _ => .exhausted k
  | fuel + 1, k, tfMCT, inclTemp, inclWS =>
    match backend k with
    | .success t => .success t (k + 1)
    | .badRequest msg =>
      let msgLower := lowerStr msg
      let tokenFlip : Bool × Bool :=
        if tfMCT && strContains msg "max_completion_tokens" then (false, true)
        else if !tfMCT && strContains msg "max_tokens" && strContains msg "max_completion_tokens"
          then (true, true)
        else (tfMCT, false)
      let tempFlip : Bool × Bool :=
        if inclTemp && strContains msg "temperature" && strContains msg "default (1)"
        then (false, true) else (inclTemp, false)
      let wsFlip : Bool × Bool :=
        if inclWS && strContains msgLower "web_search_options" then (false, true)
        else (inclWS, false)
      if tokenFlip.2 || tempFlip.2 || wsFlip.2 then
        innerLoop backend fuel (k + 1) tokenFlip.1 tempFlip.1 wsFlip.1
      else .exc (.badRequest msg) (k + 1)
    | .typeErr msg =>
      if inclWS && strContains (lowerStr msg) "web_search_options" then
        innerLoop backend fuel (k + 1) tfMCT inclTemp false
      else .exc (.typeErr msg) (k + 1)
    | e => .exc e (k + 1)

/-- The outer retry loop of `generate_text`.  Returns the normalized
result, the recorded backoff sleeps and the total invocation count.
The fallthrough when every loop iteration is consumed mirrors the final
raise of the source (dead code there, since the last attempt always
returns or raises). -/
def attemptLoop (backend : Nat → BackendResult) (resolved_model : String)
    (max_retries : Nat) (wsInit : Bool) :
    Nat → Nat → Nat → List Nat → Except LLMErr LLMResponse × List Nat × Nat
  | 0, _, k, sleeps =>
    (Except.error { message := "Unexpected LLM request failure.", category := "unknown" },
     sleeps, k)
  | remaining + 1, attempt, k, sleeps =>
    match innerLoop backend 4 k true true wsInit with
    | .success t kNew =>
      (Except.ok { text := t, model_used := resolved_model }, sleeps, kNew)
    | .exhausted kNew =>
      (Except.error { message := "Unable to prepare a compatible OpenAI request.",
                      category := "invalid_request" }, sleeps, kNew)
    | .exc e kNew =>
      match e with
      | .authError =>
        (Except.error { message := "Authentication failed. Check OPENAI_API_KEY and model access.",
                        category := "auth" }, sleeps, kNew)
      | .badRequest msg =>
        (Except.error { message := "Invalid request sent to OpenAI: " ++ msg,
                        category := "invalid_request" }, sleeps, kNew)
      | .rateLimit =>
        if attempt < max_retries then
          attemptLoop backend resolved_model max_retries wsInit remaining (attempt + 1) kNew
            (sleeps ++ [attempt + 1])
        else
          (Except.error { message := "Rate limit reached. Retry in a moment.",
                          category := "rate_limit" }, sleeps, kNew)
      | .connection =>
        if attempt < max_retries then
          attemptLoop backend resolved_model max_retries wsInit remaining (attempt + 1) kNew
            (sleeps ++ [attempt + 1])
        else
          (Except.error { message := "Network or timeout error while contacting OpenAI.",
                          category := "network" }, sleeps, kNew)
      | .status code =>
        (match code with
         | some c =>
           if c ≥ 500 then
             if attempt < max_retries then
               attemptLoop backend resolved_model max_retries wsInit remaining (attempt + 1) kNew
                 (sleeps ++ [attempt + 1])
             else
               (Except.error { message := "OpenAI server error.", category := "server" },
                sleeps, kNew)
           else if 400 ≤ c then
             (Except.error { message := "OpenAI API error (status " ++ toString c ++ ")",
                             category := "invalid_request" }, sleeps, kNew)
           else
             (Except.error { message := "OpenAI API error (status " ++ toString c ++ ")",
                             category := "unknown" }, sleeps, kNew)
         | none =>
           (Except.error { message := "Unexpected OpenAI API error.", category := "unknown" },
            sleeps, kNew))
      | .typeErr _ =>
        (Except.error { message := "Unexpected LLM request failure.", category := "unknown" },
         sleeps, kNew)
      | .otherExc =>
        (Except.error { message := "Unexpected LLM request failure.", category := "unknown" },
         sleeps, kNew)
      | .success t =>
        -- unreachable: the inner loop never escapes a completion as an exception
        (Except.ok { text := t, model_used := resolved_model }, sleeps, kNew)

/-- `generate_text` against a stubbed backend (resolution of the model
name, web-search shape initialization, then the retry loops). -/
def generateText (backend : Nat → BackendResult) (budget_model premium_model : String)
    (tier : ModelTier) (model_override : Option String) (max_retries : Nat) :
    Except LLMErr LLMResponse × List Nat × Nat :=
  let resolved := resolveModel budget_model premium_model tier model_override
  let wsInit := supportsChatWebSearch resolved
  attemptLoop backend resolved max_retries wsInit (max_retries + 1) 0 0 []

/-- Frame relation between heaps: every object and list that existed
before is unchanged (new addresses may have been allocated). -/
def heapExt (h h2 : EngineHeap) : Prop :=
  h.ps.length ≤ h2.ps.length ∧ h.lists.length ≤ h2.lists.length ∧
  (∀ i, i < h.ps.length → h2.ps.get? i = h.ps.get? i) ∧
  (∀ j, j < h.lists.length → h2.lists.get? j = h.lists.get? j)

/-! ## Helper lemmas -/

theorem copyRecord_fields (r : IterationRecord) :
    (copyRecord r).event_type = r.event_type ∧
    (copyRecord r).phase_name = r.phase_name ∧
    (copyRecord r).output_snapshot = r.output_snapshot := by
  unfold copyRecord mkIterationRecord IterationRecord.postInit
  split_ifs <;> exact ⟨rfl, rfl, rfl⟩

theorem postInit_of_eq {r : IterationRecord} (h : r.iteration_index = r.pair_index) :
    r.postInit = r := by
  unfold IterationRecord.postInit
  split_ifs with h1 h2 h3
  · omega
  · omega
  · exact absurd h h3.2.2
  · rfl

theorem phaseStepHistory_append (l1 l2 : List IterationRecord) :
    phaseStepHistory (l1 ++ l2) = phaseStepHistory l1 ++ phaseStepHistory l2 := by
  unfold phaseStepHistory
  exact List.filter_append ..

theorem phaseStepHistory_map_copy_length (l : List IterationRecord) :
    (phaseStepHistory (l.map copyRecord)).length = (phaseStepHistory l).length := by
  induction l with
  | nil => rfl
  | cons r t ih =>
    unfold phaseStepHistory at *
    simp only [List.map_cons, List.filter_cons]
    rw [(copyRecord_fields r).1, (copyRecord_fields r).2.1]
    split_ifs
    · simp only [List.length_cons, ih]
    · exact ih

/-! ## Claim C10 -/

/-- C10: after constructing any IterationRecord, `__post_init__` copies
iteration_index from pair_index when only the latter is positive, copies
pair_index from iteration_index when only the former is positive,
overwrites pair_index with iteration_index when both are positive but
differ, and consequently the two fields are equal whenever at least one
of them is positive; the engine's event constructors therefore always
produce records with iteration_index = pair_index. -/
theorem c10_post_init_synchronizes_pair_index :
    (∀ r : IterationRecord,
      (r.iteration_index ≤ 0 → 0 < r.pair_index →
        r.postInit = { r with iteration_index := r.pair_index }) ∧
      (r.pair_index ≤ 0 → 0 < r.iteration_index →
        r.postInit = { r with pair_index := r.iteration_index }) ∧
      (0 < r.iteration_index → 0 < r.pair_index → r.iteration_index ≠ r.pair_index →
        r.postInit = { r with pair_index := r.iteration_index }) ∧
      ((0 < r.iteration_index ∨ 0 < r.pair_index) →
        (r.postInit).iteration_index = (r.postInit).pair_index)) ∧
    (∀ model_used note_summary prompt_rendered output_snapshot : String,
      (makeRepairEvent model_used note_summary prompt_rendered output_snapshot).iteration_index
        = (makeRepairEvent model_used note_summary prompt_rendered output_snapshot).pair_index) ∧
    (∀ note_summary output_snapshot : String,
      (makeRestoreEvent note_summary output_snapshot).iteration_index
        = (makeRestoreEvent note_summary output_snapshot).pair_index) := by
  refine ⟨fun r => ⟨?_, ?_, ?_, ?_⟩, fun _ _ _ _ => rfl, fun _ _ => rfl⟩
  · intro h1 h2
    unfold IterationRecord.postInit
    split_ifs with g1 g2 g3 <;> first | rfl | omega
  · intro h1 h2
    unfold IterationRecord.postInit
    split_ifs with g1 g2 g3 <;> first | rfl | omega
  · intro h1 h2 h3
    unfold IterationRecord.postInit
    split_ifs with g1 g2 g3 <;> first | rfl | omega | (exact absurd ⟨h1, h2, h3⟩ g3)
  · intro h
    unfold IterationRecord.postInit
    split_ifs with g1 g2 g3 <;> (try rfl) <;> omega

/-- Witness for C10 at a concrete record with only pair_index positive. -/
theorem c10_witness :
    (({ pair_index := 3 } : IterationRecord).postInit).iteration_index
      = (({ pair_index := 3 } : IterationRecord).postInit).pair_index :=
  (c10_post_init_synchronizes_pair_index.1 { pair_index := 3 }).2.2.2 (Or.inr (by decide))

/-! ## Claim C1 -/

/-- C1: the next phase step is determined only by the number of
phase_step records: the step index is that count plus one, the phase is
additive exactly when the step index is odd (reductive when even), the
iteration index is `(index + 1) / 2` (integer division, which equals
`ceil(index / 2)`), and inserting a prompt_architect, repair or restore
record anywhere into the history leaves the metadata — and hence the
phase that `run_next_step` executes next, which it reads from
`nextPhaseMetadata` — unchanged. -/
theorem c1_next_phase_determined_by_phase_step_count :
    (∀ s : ProjectState,
      (nextPhaseMetadata s.history).2.2 = (phaseStepHistory s.history).length + 1 ∧
      (nextPhaseMetadata s.history).1 =
        (if (nextPhaseMetadata s.history).2.2 % 2 = 1 then "additive" else "reductive") ∧
      (nextPhaseMetadata s.history).2.1 = ((nextPhaseMetadata s.history).2.2 + 1) / 2) ∧
    (∀ (h1 h2 : List IterationRecord) (r : IterationRecord),
      (r.event_type = HISTORY_EVENT_PROMPT_ARCHITECT ∨
       r.event_type = HISTORY_EVENT_REPAIR ∨
       r.event_type = HISTORY_EVENT_RESTORE) →
      nextPhaseMetadata (h1 ++ r :: h2) = nextPhaseMetadata (h1 ++ h2)) := by
  constructor
  · intro s
    refine ⟨rfl, ?_, rfl⟩
    unfold nextPhaseMetadata
    have hlen : PHASE_SEQUENCE.length = 2 := rfl
    rcases Nat.mod_two_eq_zero_or_one (phaseStepHistory s.history).length with hm | hm
    · have e2 : ((phaseStepHistory s.history).length + 1) % 2 = 1 := by omega
      simp [e2, PHASE_SEQUENCE, hm]
    · have e2 : ((phaseStepHistory s.history).length + 1) % 2 = 0 := by omega
      simp [e2, PHASE_SEQUENCE, hm]
  · intro h1 h2 r hr
    have hne : r.event_type ≠ HISTORY_EVENT_PHASE_STEP := by
      rcases hr with h | h | h <;> rw [h] <;>
        simp [HISTORY_EVENT_PROMPT_ARCHITECT, HISTORY_EVENT_REPAIR,
          HISTORY_EVENT_RESTORE, HISTORY_EVENT_PHASE_STEP]
    have hfilter : phaseStepHistory (h1 ++ r :: h2) = phaseStepHistory (h1 ++ h2) := by
      unfold phaseStepHistory
      rw [List.filter_append, List.filter_append, List.filter_cons_of_neg]
      simp [hne]
    unfold nextPhaseMetadata
    rw [hfilter]

/-- Witness for C1: inserting a repair record between two phase steps
does not change the next-phase metadata. -/
theorem c1_witness :
    nextPhaseMetadata
        ([{ phase_name := "additive", iteration_index := 1, pair_index := 1,
            phase_step_index := 1 }] ++
          ({ event_type := "repair" } : IterationRecord) ::
          [{ phase_name := "reductive", iteration_index := 1, pair_index := 1,
             phase_step_index := 2 }]) =
      nextPhaseMetadata
        ([{ phase_name := "additive", iteration_index := 1, pair_index := 1,
            phase_step_index := 1 }] ++
          [{ phase_name := "reductive", iteration_index := 1, pair_index := 1,
             phase_step_index := 2 }]) :=
  c1_next_phase_determined_by_phase_step_count.2 _ _ _ (Or.inr (Or.inl rfl))

/-! ## Claim C2 -/

theorem planStepsLoop_length : ∀ (m : Nat) (it idx : Int),
    (planStepsLoop m it idx).length = 2 * m := by
  intro m
  induction m with
  | zero => intro it idx; rfl
  | succ m ih =>
    intro it idx
    simp only [planStepsLoop, List.length_cons, ih]
    omega

theorem planStepsLoop_get : ∀ (m : Nat) (it idx : Int) (k : Nat), k < 2 * m →
    (planStepsLoop m it idx).get? k =
      some { event_type := HISTORY_EVENT_PHASE_STEP
             iteration_index := it + (k / 2 : Nat)
             pair_index := it + (k / 2 : Nat)
             phase_step_index := idx + (k : Nat) + 1
             phase_name := if k % 2 = 0 then "additive" else "reductive" } := by
  intro m
  induction m with
  | zero => intro it idx k hk; omega
  | succ m ih =>
    intro it idx k hk
    match k with
    | 0 =>
      show some (mkIterationRecord _) = _
      rw [mkIterationRecord, postInit_of_eq rfl]
      simp only [Option.some.injEq, IterationRecord.mk.injEq]
      and_intros <;> first | rfl | trivial | omega | (push_cast; ring) | decide
    | 1 =>
      show some (mkIterationRecord _) = _
      rw [mkIterationRecord, postInit_of_eq rfl]
      simp only [Option.some.injEq, IterationRecord.mk.injEq]
      and_intros <;> first | rfl | trivial | omega | (push_cast; ring) | decide
    | Nat.succ (Nat.succ k) =>
      show (planStepsLoop m (it + 1) (idx + 2)).get? k = _
      rw [ih (it + 1) (idx + 2) k (by omega)]
      have hdiv : (k + 2) / 2 = k / 2 + 1 := by omega
      have hmod : (k + 2) % 2 = k % 2 := by omega
      have hss : Nat.succ (Nat.succ k) = k + 2 := rfl
      simp only [Option.some.injEq, IterationRecord.mk.injEq, hss, hdiv, hmod]
      and_intros <;> first | rfl | trivial | omega | (push_cast; ring) | decide

/-- C2: for every state and options whose resolved iteration count `N` is
at least 1, `plan_steps` returns exactly `2N` planned phase-step records
whose `phase_step_index` runs 1..2N in order, whose phase names alternate
additive, reductive, … starting additive, and whose `iteration_index` is
`k / 2 + 1` at position `k` (that is, `ceil(phase_step_index / 2)`); for a
resolved count below 1 it fails with the domain error instead. -/
theorem c2_plan_steps_enumeration (s : ProjectState) (options : Option RunOptions) :
    (1 ≤ resolveIterationsRaw s options →
      ∃ steps, planSteps s options = Except.ok steps ∧
        steps.length = 2 * (resolveIterationsRaw s options).toNat ∧
        ∀ k, k < steps.length →
          steps.get? k =
            some { event_type := HISTORY_EVENT_PHASE_STEP
                   iteration_index := (k / 2 : Nat) + 1
                   pair_index := (k / 2 : Nat) + 1
                   phase_step_index := (k : Nat) + 1
                   phase_name := if k % 2 = 0 then "additive" else "reductive" }) ∧
    (resolveIterationsRaw s options < 1 →
      planSteps s options = Except.error "Iterations must be >= 1.") := by
  constructor
  · intro hge
    have hnorm : normalizeIterations s options = Except.ok (resolveIterationsRaw s options) := by
      unfold normalizeIterations
      rw [if_neg (by omega)]
    refine ⟨planStepsLoop (resolveIterationsRaw s options).toNat 1 0, ?_, ?_, ?_⟩
    · unfold planSteps applyRunOptionsPure
      rw [hnorm]
      rfl
    · exact planStepsLoop_length ..
    · intro k hk
      rw [planStepsLoop_length] at hk
      rw [planStepsLoop_get _ 1 0 k hk]
      simp only [Option.some.injEq, IterationRecord.mk.injEq]
      and_intros <;> first | rfl | trivial | omega | (push_cast; ring) | decide
  · intro hlt
    unfold planSteps applyRunOptionsPure normalizeIterations
    rw [if_pos hlt]
    rfl

/-- Witness for C2: a concrete two-iteration plan and a concrete rejected
zero-iteration request, extracted from the claim theorem. -/
theorem c2_witness :
    (∃ steps, planSteps { iterations := 2 } none = Except.ok steps ∧
      steps.length = 2 * ((2 : Int)).toNat ∧
      ∀ k, k < steps.length →
        steps.get? k =
          some { event_type := HISTORY_EVENT_PHASE_STEP
                 iteration_index := (k / 2 : Nat) + 1
                 pair_index := (k / 2 : Nat) + 1
                 phase_step_index := (k : Nat) + 1
                 phase_name := if k % 2 = 0 then "additive" else "reductive" }) ∧
    planSteps { iterations := 0 } none = Except.error "Iterations must be >= 1." :=
  ⟨(c2_plan_steps_enumeration { iterations := 2 } none).1 (by decide),
   (c2_plan_steps_enumeration { iterations := 0 } none).2 (by decide)⟩

/-! ## Claim C9 -/

theorem makeRestoreEvent_def (note_summary output_snapshot : String) :
    makeRestoreEvent note_summary output_snapshot =
      { event_type := HISTORY_EVENT_RESTORE
        note_summary := pyStrip note_summary
        output_snapshot := output_snapshot } := by
  unfold makeRestoreEvent mkIterationRecord
  exact postInit_of_eq rfl

theorem getD_map_copy_output (records : List IterationRecord) (n : Nat) :
    ((records.map copyRecord).getD n {}).output_snapshot =
      (records.getD n {}).output_snapshot := by
  unfold List.getD
  rw [List.get?_map]
  match hget : records.get? n with
  | none => rfl
  | some r => exact (copyRecord_fields r).2.2

/-- C9: restoring from an in-range history index returns the stored
`output_snapshot` of the selected record as the new current output and a
history consisting of the pre-existing records (copied unchanged — and
byte-identical whenever the records are constructor-normalized) followed
by exactly one appended restore-tagged event carrying that snapshot; the
count of phase_step records and hence the next-phase metadata are
unchanged, and an out-of-range index is an error. -/
theorem c9_restore_snapshot (records : List IterationRecord) (i : Int) :
    (0 ≤ i → i < (records.length : Int) →
      ∃ out hist, restoreHistorySnapshot records i = Except.ok (out, hist) ∧
        out = (records.getD i.toNat {}).output_snapshot ∧
        hist.length = records.length + 1 ∧
        (∀ j, j < records.length → hist.get? j = (records.get? j).map copyRecord) ∧
        ((∀ r ∈ records, r.postInit = r) →
          ∀ j, j < records.length → hist.get? j = records.get? j) ∧
        (∀ e, hist.get? records.length = some e →
          e.event_type = HISTORY_EVENT_RESTORE ∧ e.output_snapshot = out) ∧
        (phaseStepHistory hist).length = (phaseStepHistory records).length ∧
        nextPhaseMetadata hist = nextPhaseMetadata records) ∧
    (i < 0 ∨ (records.length : Int) ≤ i →
      restoreHistorySnapshot records i = Except.error "record_index is out of range.") := by
  constructor
  · intro h0 hlt
    have hcond : ¬ (i < 0 ∨ i ≥ Int.ofNat records.length) := by
      push_neg
      refine ⟨by omega, ?_⟩
      simpa using hlt
    have hfilter : phaseStepHistory [makeRestoreEvent
        ("Restored from history entry " ++ toString (i + 1) ++ ".")
        ((records.map copyRecord).getD i.toNat {}).output_snapshot] = [] := by
      rw [makeRestoreEvent_def]
      rfl
    refine ⟨((records.map copyRecord).getD i.toNat {}).output_snapshot,
      records.map copyRecord ++
        [makeRestoreEvent ("Restored from history entry " ++ toString (i + 1) ++ ".")
          (((records.map copyRecord).getD i.toNat {}).output_snapshot)],
      ?_, getD_map_copy_output records i.toNat, ?_, ?_, ?_, ?_, ?_, ?_⟩
    · unfold restoreHistorySnapshot
      rw [if_neg hcond]
    · simp
    · intro j hj
      rw [List.get?_append (by simpa using hj)]
      exact List.get?_map ..
    · intro hnorm j hj
      rw [List.get?_append (by simpa using hj), List.get?_map]
      match hget : records.get? j with
      | none => rfl
      | some r =>
        have hmem : r ∈ records := List.get?_mem hget
        simp [copyRecord, mkIterationRecord, hnorm r hmem]
    · intro e he
      rw [← List.length_map records copyRecord, List.get?_concat_length] at he
      cases he
      rw [makeRestoreEvent_def]
      exact ⟨rfl, rfl⟩
    · rw [phaseStepHistory_append, hfilter, List.append_nil]
      exact phaseStepHistory_map_copy_length records
    · unfold nextPhaseMetadata
      simp only [phaseStepHistory_append, hfilter, List.append_nil,
        phaseStepHistory_map_copy_length]
  · intro hout
    unfold restoreHistorySnapshot
    rw [if_pos]
    rcases hout with h | h
    · exact Or.inl h
    · right
      simpa using h

/-- Concrete two-record history used by the C9 witness. -/
def sampleRestoreHistory : List IterationRecord :=
  [{ phase_name := "additive", iteration_index := 1, pair_index := 1,
     phase_step_index := 1, output_snapshot := "alpha" },
   { phase_name := "reductive", iteration_index := 1, pair_index := 1,
     phase_step_index := 2, output_snapshot := "gamma" }]

/-- Witness for C9 at a concrete two-record history and index 0, plus the
error behaviour at an out-of-range index. -/
theorem c9_witness :
    (∃ out hist,
      restoreHistorySnapshot sampleRestoreHistory 0 = Except.ok (out, hist) ∧
        out = (sampleRestoreHistory.getD (0 : Int).toNat {}).output_snapshot ∧
        hist.length = sampleRestoreHistory.length + 1 ∧
        (∀ j, j < sampleRestoreHistory.length →
          hist.get? j = (sampleRestoreHistory.get? j).map copyRecord) ∧
        ((∀ r ∈ sampleRestoreHistory, r.postInit = r) →
          ∀ j, j < sampleRestoreHistory.length → hist.get? j = sampleRestoreHistory.get? j) ∧
        (∀ e, hist.get? sampleRestoreHistory.length = some e →
          e.event_type = HISTORY_EVENT_RESTORE ∧ e.output_snapshot = out) ∧
        (phaseStepHistory hist).length = (phaseStepHistory sampleRestoreHistory).length ∧
        nextPhaseMetadata hist = nextPhaseMetadata sampleRestoreHistory) ∧
    restoreHistorySnapshot ([] : List IterationRecord) 99 =
      Except.error "record_index is out of range." :=
  ⟨(c9_restore_snapshot sampleRestoreHistory 0).1 (by decide) (by decide),
   (c9_restore_snapshot [] 99).2 (by decide)⟩

/-! ## Claim C8 -/

theorem map_mk_of_normalized :
    ∀ l : List IterationRecord, (∀ r ∈ l, r.postInit = r) →
      l.map mkIterationRecord = l := by
  intro l h
  induction l with
  | nil => rfl
  | cons a t ih =>
    have ha : a.postInit = a := h a (by simp)
    have ht := ih fun r hr => h r (by simp [hr])
    simp [mkIterationRecord, ha, ht]

/-- C8: serializing a ProjectState (with any mix of event types in its
history) and reloading the document reproduces the state exactly —
identical field values and history ordering — whenever the state carries
the accepted schema_version 1 and its records are constructor-normalized
(as every record built through the dataclass constructor is); loading a
document whose schema_version is some value other than 1 is a hard
error; and a document missing the optional output_format or model-tier
fields deserializes to the documented defaults Markdown / budget. -/
theorem c8_persistence_round_trip :
    (∀ s : PersistedProjectState, s.schema_version = 1 →
      (∀ r ∈ s.history, r.postInit = r) →
      deserializeState (serializeState s) = Except.ok s) ∧
    (∀ (p : PersistPayload) (v : Int), p.schema_version = some v → v ≠ 1 →
      deserializeState p =
        Except.error ("Unsupported schema_version=" ++ toString v ++
          "; supported versions: 1")) ∧
    (∀ (p : PersistPayload) (s : PersistedProjectState), deserializeState p = Except.ok s →
      (p.output_format = none → s.output_format = "Markdown") ∧
      (p.additive_phase_model_tier = none → s.additive_phase_model_tier = "budget") ∧
      (p.reductive_phase_model_tier = none → s.reductive_phase_model_tier = "budget")) := by
  refine ⟨?_, ?_, ?_⟩
  · intro s hv hnorm
    obtain ⟨sv, pt, oc, rq, sr, it, osf, atier, rtier, aac, rac, apt, rpt, co, hist⟩ := s
    simp only at hv hnorm
    subst hv
    unfold deserializeState serializeState
    simp only [Option.getD_some, map_mk_of_normalized hist hnorm]
    rw [if_neg (by omega)]
  · intro p v hp hv
    unfold deserializeState
    rw [hp]
    exact if_pos hv
  · intro p s hok
    unfold deserializeState at hok
    split at hok
    · cases hok
    · split at hok
      · cases hok
      · cases hok
        refine ⟨?_, ?_, ?_⟩ <;> intro hnone <;> rw [hnone] <;> rfl

/-- Concrete mixed-event state used by the C8 witness. -/
def samplePersistedState : PersistedProjectState :=
  { schema_version := 1
    project_title := "proj"
    outcome := "demo outcome"
    iterations := 2
    output_format := "JSON"
    current_output := "x"
    history :=
      [{ phase_name := "additive", iteration_index := 1, pair_index := 1,
         phase_step_index := 1, output_snapshot := "a" },
       { event_type := "prompt_architect" },
       { event_type := "repair", output_snapshot := "b" },
       { event_type := "restore", output_snapshot := "a" }] }

/-- Witness for C8: the concrete mixed-history state round-trips, a
schema_version 2 document is rejected, and an empty document with
schema_version 1 takes the documented defaults. -/
theorem c8_witness :
    deserializeState (serializeState samplePersistedState) =
      Except.ok samplePersistedState ∧
    deserializeState { schema_version := some 2 } =
      Except.error ("Unsupported schema_version=" ++ toString (2 : Int) ++
        "; supported versions: 1") ∧
    (∀ s, deserializeState { schema_version := some 1 } = Except.ok s →
      s.output_format = "Markdown" ∧ s.additive_phase_model_tier = "budget" ∧
        s.reductive_phase_model_tier = "budget") :=
  ⟨c8_persistence_round_trip.1 samplePersistedState rfl (by decide),
   c8_persistence_round_trip.2.1 { schema_version := some 2 } 2 rfl (by decide),
   fun s hok =>
     have h := c8_persistence_round_trip.2.2 { schema_version := some 1 } s hok
     ⟨h.1 rfl, h.2.1 rfl, h.2.2 rfl⟩⟩

/-! ## Heap frame lemmas (shared by the engine claims) -/

theorem listModify_length (l : List α) (i : Nat) (f : α → α) :
    (listModify l i f).length = l.length := by
  unfold listModify
  match h : l.get? i with
  | none => rfl
  | some x => exact List.length_set ..

theorem listModify_get_ne (l : List α) (i j : Nat) (f : α → α) (hne : i ≠ j) :
    (listModify l i f).get? j = l.get? j := by
  unfold listModify
  match h : l.get? i with
  | none => rfl
  | some x => exact List.get?_set_ne _ _ hne

theorem listModify_get_eq (l : List α) (i : Nat) (f : α → α) (x : α)
    (h : l.get? i = some x) : (listModify l i f).get? i = some (f x) := by
  have hi : i < l.length := by
    by_contra hge
    rw [List.get?_eq_none.2 (by omega)] at h
    cases h
  unfold listModify
  rw [h, List.get?_set_eq_of_lt _ hi]

theorem heapExt_refl (h : EngineHeap) : heapExt h h :=
  ⟨le_refl _, le_refl _, fun _ _ => rfl, fun _ _ => rfl⟩

theorem heapExt_trans {h0 h1 h2 : EngineHeap} (a : heapExt h0 h1) (b : heapExt h1 h2) :
    heapExt h0 h2 :=
  ⟨le_trans a.1 b.1, le_trans a.2.1 b.2.1,
   fun i hi => (b.2.2.1 i (lt_of_lt_of_le hi a.1)).trans (a.2.2.1 i hi),
   fun j hj => (b.2.2.2 j (lt_of_lt_of_le hj a.2.1)).trans (a.2.2.2 j hj)⟩

theorem heapExt_alloc (h : EngineHeap) (s : ProjectState) : heapExt h (h.alloc s).1 := by
  refine ⟨by simp [EngineHeap.alloc], by simp [EngineHeap.alloc], ?_, ?_⟩
  · intro i hi
    exact List.get?_append hi
  · intro j hj
    exact List.get?_append hj

theorem alloc_ps_get (h : EngineHeap) (s : ProjectState) :
    (h.alloc s).1.ps.get? h.ps.length = some (PSObj.ofState s h.lists.length) :=
  List.get?_concat_length ..

theorem alloc_lists_get (h : EngineHeap) (s : ProjectState) :
    (h.alloc s).1.lists.get? h.lists.length = some s.history :=
  List.get?_concat_length ..

theorem alloc_ps_get2 (h : EngineHeap) (s : ProjectState) :
    (h.alloc s).1.ps.get? (h.alloc s).2 = some (PSObj.ofState s h.lists.length) :=
  alloc_ps_get h s

theorem modifyObj_lists (h : EngineHeap) (a : Nat) (f : PSObj → PSObj) :
    (h.modifyObj a f).lists = h.lists := rfl

theorem appendAt_ps (h : EngineHeap) (a : Nat) (r : IterationRecord) :
    (h.appendAt a r).ps = h.ps := by
  unfold EngineHeap.appendAt
  match hget : h.ps.get? a with
  | none => rfl
  | some obj => rfl

theorem heapExt_modifyObj_fresh {h0 h1 : EngineHeap} (hx : heapExt h0 h1) (a : Nat)
    (ha : h0.ps.length ≤ a) (f : PSObj → PSObj) : heapExt h0 (h1.modifyObj a f) := by
  refine ⟨?_, hx.2.1, ?_, hx.2.2.2⟩
  · show h0.ps.length ≤ (listModify h1.ps a f).length
    rw [listModify_length]
    exact hx.1
  · intro i hi
    show (listModify h1.ps a f).get? i = _
    rw [listModify_get_ne _ _ _ _ (by omega)]
    exact hx.2.2.1 i hi

theorem heapExt_appendAt_fresh {h0 h1 : EngineHeap} (hx : heapExt h0 h1) (a : Nat)
    (r : IterationRecord)
    (href : ∀ obj, h1.ps.get? a = some obj → h0.lists.length ≤ obj.historyRef) :
    heapExt h0 (h1.appendAt a r) := by
  unfold EngineHeap.appendAt
  match hget : h1.ps.get? a with
  | none => exact hx
  | some obj =>
    have hr := href obj hget
    refine ⟨hx.1, ?_, hx.2.2.1, ?_⟩
    · show h0.lists.length ≤ (listModify h1.lists obj.historyRef _).length
      rw [listModify_length]
      exact hx.2.1
    · intro j hj
      show (listModify h1.lists obj.historyRef _).get? j = _
      rw [listModify_get_ne _ _ _ _ (by omega)]
      exact hx.2.2.2 j hj

theorem applyRunOptionsH_ok {h : EngineHeap} {a : Nat} {options : Option RunOptions}
    {res : EngineHeap × Nat} (hok : applyRunOptionsH h a options = Except.ok res) :
    ∃ state ns, h.readState a = some state ∧
      applyRunOptionsPure state options = Except.ok ns ∧ res = h.alloc ns := by
  unfold applyRunOptionsH at hok
  split at hok
  · cases hok
  · rename_i state hread
    match hpure : applyRunOptionsPure state options with
    | Except.error e => rw [hpure] at hok; cases hok
    | Except.ok ns =>
      rw [hpure] at hok
      cases hok
      exact ⟨state, ns, hread, hpure, rfl⟩

theorem setOutput_append_facts {h2 : EngineHeap} {b L : Nat} {obj : PSObj}
    {hist : List IterationRecord} (hobj : h2.ps.get? b = some obj)
    (hrefEq : obj.historyRef = L) (hl : h2.lists.get? L = some hist)
    (t : String) (rec : IterationRecord) :
    ((h2.modifyObj b fun o => { o with current_output := t }).appendAt b rec).ps.get? b
        = some { obj with current_output := t } ∧
    ((h2.modifyObj b fun o => { o with current_output := t }).appendAt b rec).lists.get? L
        = some (hist ++ [rec]) ∧
    ((h2.modifyObj b fun o => { o with current_output := t }).appendAt b rec).readState b
        = some (({ obj with current_output := t } : PSObj).toState (hist ++ [rec])) := by
  have hps3 : (h2.modifyObj b fun o => { o with current_output := t }).ps.get? b
      = some { obj with current_output := t } := listModify_get_eq _ _ _ _ hobj
  have hl3 : (h2.modifyObj b fun o => { o with current_output := t }).lists.get? L
      = some hist := by
    rw [modifyObj_lists]
    exact hl
  have href2 : ({ obj with current_output := t } : PSObj).historyRef = L := hrefEq
  have happ : ((h2.modifyObj b fun o => { o with current_output := t }).appendAt b rec)
      = { (h2.modifyObj b fun o => { o with current_output := t }) with
          lists := listModify
            (h2.modifyObj b fun o => { o with current_output := t }).lists L
            (fun l => l ++ [rec]) } := by
    unfold EngineHeap.appendAt
    rw [hps3]
    simp only [hrefEq]
  refine ⟨?_, ?_, ?_⟩
  · rw [appendAt_ps]
    exact hps3
  · rw [happ]
    exact listModify_get_eq _ _ _ _ hl3
  · rw [happ]
    unfold EngineHeap.readState
    simp only [hps3, hrefEq, listModify_get_eq _ _ _ _ hl3]

theorem setOutput_append_heapExt {h0 h2 : EngineHeap} {b L : Nat} {obj : PSObj}
    (hx : heapExt h0 h2) (hb : h0.ps.length ≤ b) (hobj : h2.ps.get? b = some obj)
    (hrefEq : obj.historyRef = L) (hL : h0.lists.length ≤ L)
    (t : String) (rec : IterationRecord) :
    heapExt h0 ((h2.modifyObj b fun o => { o with current_output := t }).appendAt b rec) := by
  refine heapExt_appendAt_fresh (heapExt_modifyObj_fresh hx _ hb _) _ _ ?_
  intro o ho
  have hps3 : (h2.modifyObj b fun o => { o with current_output := t }).ps.get? b
      = some { obj with current_output := t } := listModify_get_eq _ _ _ _ hobj
  rw [hps3] at ho
  cases ho
  show h0.lists.length ≤ obj.historyRef
  rw [hrefEq]
  exact hL

theorem mkIterationRecord_fields (r : IterationRecord) :
    (mkIterationRecord r).event_type = r.event_type ∧
    (mkIterationRecord r).phase_name = r.phase_name ∧
    (mkIterationRecord r).output_snapshot = r.output_snapshot :=
  copyRecord_fields r

theorem makeRepairEvent_fields (m ns pr os : String) :
    (makeRepairEvent m ns pr os).event_type = HISTORY_EVENT_REPAIR ∧
    (makeRepairEvent m ns pr os).output_snapshot = os := by
  unfold makeRepairEvent mkIterationRecord
  rw [postInit_of_eq rfl]
  exact ⟨rfl, rfl⟩

theorem buildPhaseStepRecord_fields (phase_name : String) (it idx : Nat)
    (result : LLMResponse) (validation : ValidationResult) (prompt_rendered : String) :
    (buildPhaseStepRecord phase_name it idx result validation prompt_rendered).event_type
        = HISTORY_EVENT_PHASE_STEP ∧
    (buildPhaseStepRecord phase_name it idx result validation prompt_rendered).phase_name
        = phase_name ∧
    (buildPhaseStepRecord phase_name it idx result validation prompt_rendered).output_snapshot
        = result.text :=
  mkIterationRecord_fields _

theorem attemptStructuralRepair_fields (rr : LLMResponse) (ot fmt msg : String) :
    (attemptStructuralRepair rr ot fmt msg).1
        = (if (validateForFormat rr.text fmt).ok then rr.text else ot) ∧
    (attemptStructuralRepair rr ot fmt msg).2.event_type = HISTORY_EVENT_REPAIR ∧
    (attemptStructuralRepair rr ot fmt msg).2.output_snapshot = rr.text := by
  by_cases hv : (validateForFormat rr.text fmt).ok = true <;>
    simp [attemptStructuralRepair, hv] <;>
    exact ⟨(makeRepairEvent_fields ..).1, (makeRepairEvent_fields ..).2⟩

theorem runNextStepH_spec {h : EngineHeap} {a : Nat} {llm : Nat → LLMResponse} {n : Nat}
    {h' : EngineHeap} {b n' : Nat} {state : ProjectState}
    (hread : h.readState a = some state)
    (hok : runNextStepH h a llm n = Except.ok (h', b, n')) :
    ∃ ns stepRec,
      applyRunOptionsPure state none = Except.ok ns ∧
      b = h.ps.length ∧
      heapExt h h' ∧
      stepRec.event_type = HISTORY_EVENT_PHASE_STEP ∧
      stepRec.phase_name = (nextPhaseMetadata state.history).1 ∧
      stepRec.output_snapshot = (llm n).text ∧
      (if (validateForFormat (llm n).text state.output_format).applicable &&
          !(validateForFormat (llm n).text state.output_format).ok then
        ∃ repairRec,
          repairRec.event_type = HISTORY_EVENT_REPAIR ∧
          repairRec.output_snapshot = (llm (n + 1)).text ∧
          n' = n + 2 ∧
          h'.readState b = some { ns with
            current_output :=
              if (validateForFormat (llm (n + 1)).text state.output_format).ok
              then (llm (n + 1)).text else (llm n).text
            history := ns.history ++ [stepRec, repairRec] }
      else
        n' = n + 1 ∧
        h'.readState b = some { ns with
          current_output := (llm n).text
          history := ns.history ++ [stepRec] }) := by
  unfold runNextStepH at hok
  rw [hread] at hok
  try dsimp only at hok
  match htmpl : templateForPhase state (nextPhaseMetadata state.history).1 with
  | Except.error e =>
    rw [htmpl] at hok
    cases hok
  | Except.ok tmpl =>
    rw [htmpl] at hok
    try dsimp only at hok
    match happ : applyRunOptionsH h a none with
    | Except.error e =>
      rw [happ] at hok
      cases hok
    | Except.ok pair =>
      rw [happ] at hok
      try dsimp only at hok
      obtain ⟨state2, ns, hread2, hpure, hpair⟩ := applyRunOptionsH_ok happ
      rw [hread] at hread2
      cases hread2
      subst hpair
      split at hok
      · -- repair branch
        rename_i hcond
        cases hok
        have facts1 := setOutput_append_facts (alloc_ps_get2 h ns) rfl (alloc_lists_get h ns)
          (llm n).text
          (buildPhaseStepRecord (nextPhaseMetadata state.history).1
            (nextPhaseMetadata state.history).2.1 (nextPhaseMetadata state.history).2.2
            (llm n) (validateForFormat (llm n).text state.output_format)
            (if ¬ templateMentionsFormat tmpl state.output_format then
              getFormatGuidance state.output_format ++ "\n\n" ++
                renderTemplate tmpl (buildContext state (nextPhaseMetadata state.history).1
                  (Int.ofNat (nextPhaseMetadata state.history).2.1))
             else renderTemplate tmpl (buildContext state (nextPhaseMetadata state.history).1
                  (Int.ofNat (nextPhaseMetadata state.history).2.1))))
        have ext1 := setOutput_append_heapExt (heapExt_alloc h ns) (le_of_eq rfl)
          (alloc_ps_get2 h ns) rfl (le_refl _)
          (llm n).text
          (buildPhaseStepRecord (nextPhaseMetadata state.history).1
            (nextPhaseMetadata state.history).2.1 (nextPhaseMetadata state.history).2.2
            (llm n) (validateForFormat (llm n).text state.output_format)
            (if ¬ templateMentionsFormat tmpl state.output_format then
              getFormatGuidance state.output_format ++ "\n\n" ++
                renderTemplate tmpl (buildContext state (nextPhaseMetadata state.history).1
                  (Int.ofNat (nextPhaseMetadata state.history).2.1))
             else renderTemplate tmpl (buildContext state (nextPhaseMetadata state.history).1
                  (Int.ofNat (nextPhaseMetadata state.history).2.1))))
        have facts2 := setOutput_append_facts facts1.1 rfl facts1.2.1
          (attemptStructuralRepair (llm (n + 1)) (llm n).text state.output_format
            (validateForFormat (llm n).text state.output_format).message).1
          (attemptStructuralRepair (llm (n + 1)) (llm n).text state.output_format
            (validateForFormat (llm n).text state.output_format).message).2
        have ext2 := setOutput_append_heapExt ext1 (le_refl _) facts1.1 rfl (le_refl _)
          (attemptStructuralRepair (llm (n + 1)) (llm n).text state.output_format
            (validateForFormat (llm n).text state.output_format).message).1
          (attemptStructuralRepair (llm (n + 1)) (llm n).text state.output_format
            (validateForFormat (llm n).text state.output_format).message).2
        refine ⟨ns,
          buildPhaseStepRecord (nextPhaseMetadata state.history).1
            (nextPhaseMetadata state.history).2.1 (nextPhaseMetadata state.history).2.2
            (llm n) (validateForFormat (llm n).text state.output_format)
            (if ¬ templateMentionsFormat tmpl state.output_format then
              getFormatGuidance state.output_format ++ "\n\n" ++
                renderTemplate tmpl (buildContext state (nextPhaseMetadata state.history).1
                  (Int.ofNat (nextPhaseMetadata state.history).2.1))
             else renderTemplate tmpl (buildContext state (nextPhaseMetadata state.history).1
                  (Int.ofNat (nextPhaseMetadata state.history).2.1))),
          hpure, rfl, ext2,
          (buildPhaseStepRecord_fields _ _ _ _ _ _).1,
          (buildPhaseStepRecord_fields _ _ _ _ _ _).2.1,
          (buildPhaseStepRecord_fields _ _ _ _ _ _).2.2, ?_⟩
        rw [if_pos hcond]
        refine ⟨(attemptStructuralRepair (llm (n + 1)) (llm n).text state.output_format
            (validateForFormat (llm n).text state.output_format).message).2,
          (attemptStructuralRepair_fields _ _ _ _).2.1,
          (attemptStructuralRepair_fields _ _ _ _).2.2, rfl, ?_⟩
        rw [facts2.2.2, (attemptStructuralRepair_fields _ _ _ _).1, List.append_assoc]
        rfl
      · rename_i hcond
        cases hok
        have facts1 := setOutput_append_facts (alloc_ps_get2 h ns) rfl (alloc_lists_get h ns)
          (llm n).text
          (buildPhaseStepRecord (nextPhaseMetadata state.history).1
            (nextPhaseMetadata state.history).2.1 (nextPhaseMetadata state.history).2.2
            (llm n) (validateForFormat (llm n).text state.output_format)
            (if ¬ templateMentionsFormat tmpl state.output_format then
              getFormatGuidance state.output_format ++ "\n\n" ++
                renderTemplate tmpl (buildContext state (nextPhaseMetadata state.history).1
                  (Int.ofNat (nextPhaseMetadata state.history).2.1))
             else renderTemplate tmpl (buildContext state (nextPhaseMetadata state.history).1
                  (Int.ofNat (nextPhaseMetadata state.history).2.1))))
        have ext1 := setOutput_append_heapExt (heapExt_alloc h ns) (le_of_eq rfl)
          (alloc_ps_get2 h ns) rfl (le_refl _)
          (llm n).text
          (buildPhaseStepRecord (nextPhaseMetadata state.history).1
            (nextPhaseMetadata state.history).2.1 (nextPhaseMetadata state.history).2.2
            (llm n) (validateForFormat (llm n).text state.output_format)
            (if ¬ templateMentionsFormat tmpl state.output_format then
              getFormatGuidance state.output_format ++ "\n\n" ++
                renderTemplate tmpl (buildContext state (nextPhaseMetadata state.history).1
                  (Int.ofNat (nextPhaseMetadata state.history).2.1))
             else renderTemplate tmpl (buildContext state (nextPhaseMetadata state.history).1
                  (Int.ofNat (nextPhaseMetadata state.history).2.1))))
        refine ⟨ns,
          buildPhaseStepRecord (nextPhaseMetadata state.history).1
            (nextPhaseMetadata state.history).2.1 (nextPhaseMetadata state.history).2.2
            (llm n) (validateForFormat (llm n).text state.output_format)
            (if ¬ templateMentionsFormat tmpl state.output_format then
              getFormatGuidance state.output_format ++ "\n\n" ++
                renderTemplate tmpl (buildContext state (nextPhaseMetadata state.history).1
                  (Int.ofNat (nextPhaseMetadata state.history).2.1))
             else renderTemplate tmpl (buildContext state (nextPhaseMetadata state.history).1
                  (Int.ofNat (nextPhaseMetadata state.history).2.1))),
          hpure, rfl, ext1,
          (buildPhaseStepRecord_fields _ _ _ _ _ _).1,
          (buildPhaseStepRecord_fields _ _ _ _ _ _).2.1,
          (buildPhaseStepRecord_fields _ _ _ _ _ _).2.2, ?_⟩
        rw [if_neg hcond]
        exact ⟨rfl, facts1.2.2⟩

theorem applyRunOptionsPure_ok {s : ProjectState} {o : Option RunOptions} {ns : ProjectState}
    (h : applyRunOptionsPure s o = Except.ok ns) :
    ns.history = s.history.map copyRecord ∧ ns.current_output = s.current_output := by
  unfold applyRunOptionsPure at h
  match hn : normalizeIterations s o with
  | Except.error e => rw [hn] at h; cases h
  | Except.ok v =>
    rw [hn] at h
    cases h
    exact ⟨rfl, rfl⟩

theorem runNextStepH_frame {h : EngineHeap} {a : Nat} {llm : Nat → LLMResponse} {n : Nat}
    {h2 : EngineHeap} {b n2 : Nat}
    (hok : runNextStepH h a llm n = Except.ok (h2, b, n2)) :
    heapExt h h2 ∧ h.ps.length ≤ b := by
  match hread : h.readState a with
  | none =>
    unfold runNextStepH at hok
    rw [hread] at hok
    cases hok
  | some state =>
    obtain ⟨ns, sr, _, hb, hx, _⟩ := runNextStepH_spec hread hok
    exact ⟨hx, le_of_eq hb.symm⟩

theorem runIterationsLoop_frame (llm : Nat → LLMResponse) (should_stop : Nat → Bool)
    (h0len : Nat) :
    ∀ (m : Nat) (h : EngineHeap) (b n completed : Nat)
      (res : EngineHeap × Nat × Nat × Nat × Bool),
      h0len ≤ h.ps.length → h0len ≤ b →
      runIterationsLoop llm should_stop m h b n completed = Except.ok res →
      heapExt h res.1 ∧ h0len ≤ res.2.1 := by
  intro m
  induction m with
  | zero =>
    intro h b n completed res hlen hb hok
    cases hok
    exact ⟨heapExt_refl h, hb⟩
  | succ m ih =>
    intro h b n completed res hlen hb hok
    unfold runIterationsLoop at hok
    split at hok
    · cases hok
      exact ⟨heapExt_refl h, hb⟩
    · match hstep : runNextStepH h b llm n with
      | Except.error e => rw [hstep] at hok; cases hok
      | Except.ok step =>
        rw [hstep] at hok
        have hfr := runNextStepH_frame
          (show runNextStepH h b llm n = Except.ok (step.1, step.2.1, step.2.2) from by
            rw [hstep])
        have hrec := ih step.1 step.2.1 step.2.2 (completed + 1) res
          (le_trans hlen hfr.1.1) (le_trans hlen hfr.2) hok
        exact ⟨heapExt_trans hfr.1 hrec.1, hrec.2⟩

/-! ## Claim C4 -/

/-- C4: the engine transformations never change the caller's state: for
each of apply_run_options, run_next_step and run_iterations, every state
object and every history list that existed in the heap before the call
is unchanged afterwards (`heapExt`), so the caller's snapshot — its
scalar fields and the length and contents of its history list — remains
valid; the returned state is a newly allocated object
(`address ≥ old heap size`) holding a freshly allocated history list. -/
theorem c4_engine_preserves_caller_state :
    (∀ (h : EngineHeap) (a : Nat) (options : Option RunOptions) (h2 : EngineHeap) (b : Nat),
      applyRunOptionsH h a options = Except.ok (h2, b) →
      heapExt h h2 ∧ b = h.ps.length ∧
        ∀ obj, h2.ps.get? b = some obj → obj.historyRef = h.lists.length) ∧
    (∀ (h : EngineHeap) (a : Nat) (llm : Nat → LLMResponse) (n : Nat)
      (h2 : EngineHeap) (b n2 : Nat),
      runNextStepH h a llm n = Except.ok (h2, b, n2) →
      heapExt h h2 ∧ h.ps.length ≤ b) ∧
    (∀ (h : EngineHeap) (a : Nat) (iterations : Option Int) (llm : Nat → LLMResponse)
      (should_stop : Nat → Bool) (n : Nat)
      (res : EngineHeap × Nat × Nat × Nat × Bool),
      runIterationsH h a iterations llm should_stop n = Except.ok res →
      heapExt h res.1 ∧ h.ps.length ≤ res.2.1) := by
  refine ⟨?_, ?_, ?_⟩
  · intro h a options h2 b hok
    obtain ⟨state, ns, hread, hpure, hpair⟩ := applyRunOptionsH_ok hok
    have h1 : h2 = (h.alloc ns).1 := congrArg Prod.fst hpair
    have h2b : b = (h.alloc ns).2 := congrArg Prod.snd hpair
    subst h1
    subst h2b
    refine ⟨heapExt_alloc h ns, rfl, ?_⟩
    intro obj hobj
    rw [alloc_ps_get2] at hobj
    cases hobj
    rfl
  · intro h a llm n h2 b n2 hok
    exact runNextStepH_frame hok
  · intro h a iterations llm should_stop n res hok
    unfold runIterationsH at hok
    match hread : h.readState a with
    | none => rw [hread] at hok; cases hok
    | some state =>
      rw [hread] at hok
      try dsimp only at hok
      by_cases ht : (match iterations with | some v => v | none => state.iterations) < 1
      · rw [if_pos ht] at hok
        cases hok
      · rw [if_neg ht] at hok
        generalize hT : (match iterations with
          | some v => v | none => state.iterations) = target at hok ht
        match happ : applyRunOptionsH h a none with
        | Except.error e => rw [happ] at hok; cases hok
        | Except.ok pair =>
          rw [happ] at hok
          try dsimp only at hok
          obtain ⟨state2, ns, hread2, hpure, hpair⟩ := applyRunOptionsH_ok happ
          subst hpair
          have hx2 : heapExt h ((h.alloc ns).1.modifyObj (h.alloc ns).2
              fun o => { o with iterations := target }) :=
            heapExt_modifyObj_fresh (heapExt_alloc h ns) _ (le_of_eq rfl) _
          have hok2 : runIterationsLoop llm should_stop
              (target.toNat * PHASE_SEQUENCE.length)
              ((h.alloc ns).1.modifyObj (h.alloc ns).2
                fun o => { o with iterations := target })
              (h.alloc ns).2 n 0 = Except.ok res := hok
          have hloop := runIterationsLoop_frame llm should_stop h.ps.length _ _ _ _ _ res
            (le_trans (le_of_eq rfl) hx2.1) (le_of_eq rfl) hok2
          exact ⟨heapExt_trans hx2 hloop.1, hloop.2⟩

/-- Stubbed LLM responses for the engine witnesses: the first call returns
text that is not valid JSON, every later call returns a minimal valid
JSON object. -/
def sampleLLM : Nat → LLMResponse := fun k =>
  if k = 0 then { text := "not json", model_used := "m" }
  else { text := "\x7b\x7d", model_used := "m" }

/-- Concrete heap object used by the engine witnesses. -/
def sampleObj : PSObj :=
  { additive_prompt_template := "Improve: \x7b\x7bCURRENT_OUTPUT\x7d\x7d"
    reductive_prompt_template := "Cut: \x7b\x7bCURRENT_OUTPUT\x7d\x7d"
    output_format := "Markdown"
    historyRef := 0 }

/-- Concrete one-object heap used by the engine witnesses. -/
def sampleHeap : EngineHeap := { ps := [sampleObj], lists := [[]] }

/-- Witness for C4: all three transformations succeed on the concrete
heap and leave the pre-existing heap contents unchanged. -/
theorem c4_witness :
    (∃ h2 b, applyRunOptionsH sampleHeap 0 none = Except.ok (h2, b) ∧
      heapExt sampleHeap h2 ∧ b = sampleHeap.ps.length) ∧
    (∃ h2 b n2, runNextStepH sampleHeap 0 sampleLLM 0 = Except.ok (h2, b, n2) ∧
      heapExt sampleHeap h2 ∧ sampleHeap.ps.length ≤ b) ∧
    (∃ res, runIterationsH sampleHeap 0 (some 1) sampleLLM (fun _ => false) 0
        = Except.ok res ∧
      heapExt sampleHeap res.1 ∧ sampleHeap.ps.length ≤ res.2.1) := by
  refine ⟨?_, ?_, ?_⟩
  · obtain ⟨r, hr⟩ : ∃ r, applyRunOptionsH sampleHeap 0 none = Except.ok r := ⟨_, rfl⟩
    obtain ⟨h2, b⟩ := r
    have hfacts := c4_engine_preserves_caller_state.1 sampleHeap 0 none h2 b hr
    exact ⟨h2, b, hr, hfacts.1, hfacts.2.1⟩
  · obtain ⟨r, hr⟩ : ∃ r, runNextStepH sampleHeap 0 sampleLLM 0 = Except.ok r := ⟨_, rfl⟩
    obtain ⟨h2, b, n2⟩ := r
    have hfacts := c4_engine_preserves_caller_state.2.1 sampleHeap 0 sampleLLM 0 h2 b n2 hr
    exact ⟨h2, b, n2, hr, hfacts.1, hfacts.2⟩
  · obtain ⟨r, hr⟩ :
        ∃ r, runIterationsH sampleHeap 0 (some 1) sampleLLM (fun _ => false) 0
          = Except.ok r := ⟨_, rfl⟩
    have hfacts := c4_engine_preserves_caller_state.2.2 sampleHeap 0 (some 1) sampleLLM
      (fun _ => false) 0 r hr
    exact ⟨r, hr, hfacts.1, hfacts.2⟩

/-! ## Claim C3 -/

/-- C3: on a step whose structural validation is applicable and fails,
`run_next_step` makes exactly one additional (repair) LLM call — the call
count rises by two, so there is no repair-of-repair — and appends exactly
two records in order, the phase_step record then a repair record; the
result state's current_output is the repaired text precisely when the
repaired text re-validates ok and otherwise stays the original invalid
text, while the repair record's output_snapshot holds the repaired text
either way.  When validation passes or is not applicable, exactly one
record is appended and only the one main LLM call is made. -/
theorem c3_repair_flow {h : EngineHeap} {a : Nat} {llm : Nat → LLMResponse} {n : Nat}
    {state : ProjectState} {h2 : EngineHeap} {b n2 : Nat}
    (hread : h.readState a = some state)
    (hrun : runNextStepH h a llm n = Except.ok (h2, b, n2)) :
    ((validateForFormat (llm n).text state.output_format).applicable = true →
     (validateForFormat (llm n).text state.output_format).ok = false →
      n2 = n + 2 ∧
      ∃ s2 rec1 rec2, h2.readState b = some s2 ∧
        rec1.event_type = HISTORY_EVENT_PHASE_STEP ∧
        rec2.event_type = HISTORY_EVENT_REPAIR ∧
        rec2.output_snapshot = (llm (n + 1)).text ∧
        s2.history = state.history.map copyRecord ++ [rec1, rec2] ∧
        s2.current_output =
          (if (validateForFormat (llm (n + 1)).text state.output_format).ok
           then (llm (n + 1)).text else (llm n).text)) ∧
    (¬ ((validateForFormat (llm n).text state.output_format).applicable = true ∧
        (validateForFormat (llm n).text state.output_format).ok = false) →
      n2 = n + 1 ∧
      ∃ s2 rec1, h2.readState b = some s2 ∧
        rec1.event_type = HISTORY_EVENT_PHASE_STEP ∧
        s2.history = state.history.map copyRecord ++ [rec1] ∧
        s2.current_output = (llm n).text) := by
  obtain ⟨ns, stepRec, hpure, hb, hx, het, hpn, hos, hcases⟩ := runNextStepH_spec hread hrun
  have hhist := (applyRunOptionsPure_ok hpure).1
  by_cases hcond : ((validateForFormat (llm n).text state.output_format).applicable &&
      !(validateForFormat (llm n).text state.output_format).ok) = true
  · rw [if_pos hcond] at hcases
    obtain ⟨rr, hrr1, hrr2, hn2, hreadb⟩ := hcases
    constructor
    · intro _ _
      refine ⟨hn2, _, stepRec, rr, hreadb, het, hrr1, hrr2, ?_, rfl⟩
      show ns.history ++ [stepRec, rr] = state.history.map copyRecord ++ [stepRec, rr]
      rw [hhist]
    · intro hneg
      rw [Bool.and_eq_true] at hcond
      exact absurd ⟨hcond.1, by simpa using hcond.2⟩ hneg
  · rw [if_neg hcond] at hcases
    obtain ⟨hn2, hreadb⟩ := hcases
    constructor
    · intro happl hok0
      exact absurd (by rw [happl, hok0]; rfl) hcond
    · intro _
      refine ⟨hn2, _, stepRec, hreadb, het, ?_, rfl⟩
      show ns.history ++ [stepRec] = state.history.map copyRecord ++ [stepRec]
      rw [hhist]

/-- Concrete heap object with JSON output format for the C3 witness. -/
def sampleObjJSON : PSObj :=
  { additive_prompt_template := "Improve: \x7b\x7bCURRENT_OUTPUT\x7d\x7d"
    reductive_prompt_template := "Cut: \x7b\x7bCURRENT_OUTPUT\x7d\x7d"
    output_format := "JSON"
    historyRef := 0 }

/-- Concrete one-object heap with JSON output format. -/
def sampleHeapJSON : EngineHeap := { ps := [sampleObjJSON], lists := [[]] }

/-- Witness for C3: with the stub returning invalid JSON then valid JSON,
one step appends the phase_step record and a repair record, makes exactly
two LLM calls, and adopts the repaired valid JSON as current_output. -/
theorem c3_witness :
    ∃ h2 b n2, runNextStepH sampleHeapJSON 0 sampleLLM 0 = Except.ok (h2, b, n2) ∧
      n2 = 0 + 2 ∧
      ∃ s2 rec1 rec2, h2.readState b = some s2 ∧
        rec1.event_type = HISTORY_EVENT_PHASE_STEP ∧
        rec2.event_type = HISTORY_EVENT_REPAIR ∧
        rec2.output_snapshot = (sampleLLM (0 + 1)).text ∧
        s2.history = (PSObj.toState sampleObjJSON []).history.map copyRecord ++ [rec1, rec2] ∧
        s2.current_output =
          (if (validateForFormat (sampleLLM (0 + 1)).text
              (PSObj.toState sampleObjJSON []).output_format).ok
           then (sampleLLM (0 + 1)).text else (sampleLLM 0).text) := by
  obtain ⟨r, hr⟩ : ∃ r, runNextStepH sampleHeapJSON 0 sampleLLM 0 = Except.ok r := ⟨_, rfl⟩
  obtain ⟨h2, b, n2⟩ := r
  have hc := c3_repair_flow
    (show sampleHeapJSON.readState 0 = some (PSObj.toState sampleObjJSON []) from rfl) hr
  exact ⟨h2, b, n2, hr, hc.1 rfl rfl⟩

/-! ## Scanner lemmas (shared by the template claims) -/

/-- Canonical-fuel token substitution on character lists. -/
def substList (f : String → Option String) (cs : List Char) : List Char :=
  substAux f cs.length cs

/-- Canonical-fuel token collection on character lists. -/
def findList (cs : List Char) : List String :=
  findAux cs.length cs

theorem takeWs_append_eq (y : List Char) : (takeWs y).1 ++ (takeWs y).2 = y := by
  induction y with
  | nil => rfl
  | cons c r ih =>
    unfold takeWs
    by_cases hc : isWsChar c = true
    · simp only [hc, if_true, List.cons_append, ih]
    · simp only [hc, if_false]
      rw [if_neg (by simp [hc])]
      rfl

theorem takeName_append_eq (y : List Char) : (takeName y).1 ++ (takeName y).2 = y := by
  induction y with
  | nil => rfl
  | cons c r ih =>
    unfold takeName
    by_cases hc : isTokenChar c = true
    · simp only [hc, if_true, List.cons_append, ih]
    · simp only [hc, if_false]
      rw [if_neg (by simp [hc])]
      rfl

theorem takeWs_rest_le (y : List Char) : (takeWs y).2.length ≤ y.length := by
  conv_rhs => rw [← takeWs_append_eq y]
  rw [List.length_append]
  omega

theorem takeName_rest_le (y : List Char) : (takeName y).2.length ≤ y.length := by
  conv_rhs => rw [← takeName_append_eq y]
  rw [List.length_append]
  omega

theorem tryToken_rest_lt {cs m : List Char} {nm : String} {r : List Char}
    (h : tryToken cs = some (m, nm, r)) : r.length < cs.length := by
  unfold tryToken at h
  match cs, h with
  | c1 :: c2 :: y, h =>
    dsimp only at h
    split_ifs at h with h1 h2
    · match hw2 : (takeWs (takeName (takeWs y).2).2).2, h with
      | d1 :: d2 :: r2, h =>
        dsimp only at h
        split_ifs at h with h3
        cases h
        have e1 : r.length + 2 ≤ (takeName (takeWs y).2).2.length := by
          have := takeWs_rest_le (takeName (takeWs y).2).2
          rw [hw2] at this
          simpa using this
        have e2 := takeName_rest_le (takeWs y).2
        have e3 := takeWs_rest_le y
        simp only [List.length_cons]
        omega

theorem substAux_fuel (f : String → Option String) :
    ∀ fuel1 fuel2 cs, cs.length ≤ fuel1 → cs.length ≤ fuel2 →
      substAux f fuel1 cs = substAux f fuel2 cs := by
  intro fuel1
  induction fuel1 with
  | zero =>
    intro fuel2 cs h1 h2
    have hnil : cs = [] := List.eq_nil_of_length_eq_zero (Nat.le_zero.mp h1)
    subst hnil
    cases fuel2 <;> rfl
  | succ k ih =>
    intro fuel2 cs h1 h2
    cases cs with
    | nil => cases fuel2 <;> rfl
    | cons c rest =>
      cases fuel2 with
      | zero => simp at h2
      | succ m2 =>
        unfold substAux
        cases htk : tryToken (c :: rest) with
        | some t =>
          obtain ⟨mm, nm, r⟩ := t
          have hlt := tryToken_rest_lt htk
          simp only [List.length_cons] at h1 h2 hlt
          dsimp only
          rw [ih m2 r (by omega) (by omega)]
        | none =>
          simp only [List.length_cons] at h1 h2
          dsimp only
          rw [ih m2 rest (by omega) (by omega)]

theorem findAux_fuel :
    ∀ fuel1 fuel2 cs, cs.length ≤ fuel1 → cs.length ≤ fuel2 →
      findAux fuel1 cs = findAux fuel2 cs := by
  intro fuel1
  induction fuel1 with
  | zero =>
    intro fuel2 cs h1 h2
    have hnil : cs = [] := List.eq_nil_of_length_eq_zero (Nat.le_zero.mp h1)
    subst hnil
    cases fuel2 <;> rfl
  | succ k ih =>
    intro fuel2 cs h1 h2
    cases cs with
    | nil => cases fuel2 <;> rfl
    | cons c rest =>
      cases fuel2 with
      | zero => simp at h2
      | succ m2 =>
        unfold findAux
        cases htk : tryToken (c :: rest) with
        | some t =>
          obtain ⟨mm, nm, r⟩ := t
          have hlt := tryToken_rest_lt htk
          simp only [List.length_cons] at h1 h2 hlt
          dsimp only
          rw [ih m2 r (by omega) (by omega)]
        | none =>
          simp only [List.length_cons] at h1 h2
          dsimp only
          rw [ih m2 rest (by omega) (by omega)]

theorem substList_cons_none (f : String → Option String) (c : Char) (rest : List Char)
    (h : tryToken (c :: rest) = none) :
    substList f (c :: rest) = c :: substList f rest := by
  unfold substList
  simp only [List.length_cons]
  rw [substAux, h]

theorem substList_cons_some (f : String → Option String) {cs m r : List Char} {nm : String}
    (h : tryToken cs = some (m, nm, r)) :
    substList f cs =
      (match f nm with | some repl => repl.data | none => m) ++ substList f r := by
  cases cs with
  | nil => simp [tryToken] at h
  | cons c rest =>
    have hlt := tryToken_rest_lt h
    simp only [List.length_cons] at hlt
    unfold substList
    simp only [List.length_cons]
    rw [substAux, h]
    dsimp only
    rw [substAux_fuel f rest.length r.length r (by omega) le_rfl]

theorem findList_cons_none (c : Char) (rest : List Char)
    (h : tryToken (c :: rest) = none) :
    findList (c :: rest) = findList rest := by
  unfold findList
  simp only [List.length_cons]
  rw [findAux, h]

theorem findList_cons_some {cs m r : List Char} {nm : String}
    (h : tryToken cs = some (m, nm, r)) :
    findList cs = nm :: findList r := by
  cases cs with
  | nil => simp [tryToken] at h
  | cons c rest =>
    have hlt := tryToken_rest_lt h
    simp only [List.length_cons] at hlt
    unfold findList
    simp only [List.length_cons]
    rw [findAux, h]
    dsimp only
    rw [findAux_fuel rest.length r.length r (by omega) le_rfl]

theorem tryToken_head_ne {c : Char} (rest : List Char) (h : ¬c = lb) :
    tryToken (c :: rest) = none := by
  cases rest with
  | nil => rfl
  | cons c2 y =>
    unfold tryToken
    dsimp only
    rw [if_neg (fun hp => h hp.1)]

theorem substList_append_clean (f : String → Option String) (p s : List Char)
    (hp : ∀ c ∈ p, ¬c = lb) :
    substList f (p ++ s) = p ++ substList f s := by
  induction p with
  | nil => rfl
  | cons c p2 ih =>
    rw [List.cons_append,
      substList_cons_none f c (p2 ++ s) (tryToken_head_ne _ (hp c (by simp))),
      ih (fun d hd => hp d (by simp [hd]))]
    rfl

theorem findList_append_clean (p s : List Char) (hp : ∀ c ∈ p, ¬c = lb) :
    findList (p ++ s) = findList s := by
  induction p with
  | nil => rfl
  | cons c p2 ih =>
    rw [List.cons_append,
      findList_cons_none c (p2 ++ s) (tryToken_head_ne _ (hp c (by simp))),
      ih (fun d hd => hp d (by simp [hd]))]

theorem tokenChar_not_ws {c : Char} (h : isTokenChar c = true) : isWsChar c = false := by
  by_contra hws
  rw [Bool.not_eq_false] at hws
  unfold isWsChar at hws
  simp only [Bool.or_eq_true, decide_eq_true_eq] at hws
  rcases hws with ((((h1 | h1) | h1) | h1) | h1) | h1 <;> subst h1 <;> revert h <;> decide

theorem ws_not_tokenChar {c : Char} (h : isWsChar c = true) : isTokenChar c = false := by
  by_contra htk
  rw [Bool.not_eq_false] at htk
  rw [tokenChar_not_ws htk] at h
  exact Bool.false_ne_true h

theorem takeWs_exact (w z : List Char) (hw : ∀ c ∈ w, isWsChar c = true)
    (hz : ∀ d ∈ z.head?, isWsChar d = false) :
    takeWs (w ++ z) = (w, z) := by
  induction w with
  | nil =>
    cases z with
    | nil => rfl
    | cons d z2 =>
      have hd : isWsChar d = false := hz d (by simp)
      simp only [List.nil_append]
      unfold takeWs
      rw [if_neg (by simp [hd])]
  | cons c w2 ih =>
    have hc : isWsChar c = true := hw c (by simp)
    simp only [List.cons_append]
    unfold takeWs
    rw [if_pos (by simp [hc])]
    dsimp only
    rw [ih (fun d hd => hw d (by simp [hd]))]

theorem takeName_exact (w z : List Char) (hw : ∀ c ∈ w, isTokenChar c = true)
    (hz : ∀ d ∈ z.head?, isTokenChar d = false) :
    takeName (w ++ z) = (w, z) := by
  induction w with
  | nil =>
    cases z with
    | nil => rfl
    | cons d z2 =>
      have hd : isTokenChar d = false := hz d (by simp)
      simp only [List.nil_append]
      unfold takeName
      rw [if_neg (by simp [hd])]
  | cons c w2 ih =>
    have hc : isTokenChar c = true := hw c (by simp)
    simp only [List.cons_append]
    unfold takeName
    rw [if_pos (by simp [hc])]
    dsimp only
    rw [ih (fun d hd => hw d (by simp [hd]))]

theorem tryToken_token (w nm w2 s : List Char)
    (hw : ∀ c ∈ w, isWsChar c = true) (hnm : ∀ c ∈ nm, isTokenChar c = true)
    (hne : nm ≠ []) (hw2 : ∀ c ∈ w2, isWsChar c = true) :
    tryToken (lb :: lb :: (w ++ (nm ++ (w2 ++ rb :: rb :: s)))) =
      some (lb :: lb :: (w ++ nm ++ w2 ++ [rb, rb]), String.mk nm, s) := by
  obtain ⟨a, nm2, rfl⟩ : ∃ a nm2, nm = a :: nm2 := by
    cases nm with
    | nil => exact absurd rfl hne
    | cons a t => exact ⟨a, t, rfl⟩
  have hz1 : ∀ d ∈ ((a :: nm2) ++ (w2 ++ rb :: rb :: s)).head?, isWsChar d = false := by
    intro d hd
    simp only [List.cons_append, List.head?_cons, Option.mem_def, Option.some.injEq] at hd
    subst hd
    exact tokenChar_not_ws (hnm a (by simp))
  have hz2 : ∀ d ∈ (w2 ++ rb :: rb :: s).head?, isTokenChar d = false := by
    cases w2 with
    | nil =>
      intro d hd
      simp only [List.nil_append, List.head?_cons, Option.mem_def, Option.some.injEq] at hd
      subst hd
      decide
    | cons b t =>
      intro d hd
      simp only [List.cons_append, List.head?_cons, Option.mem_def, Option.some.injEq] at hd
      subst hd
      exact ws_not_tokenChar (hw2 b (by simp))
  have hz3 : ∀ d ∈ (rb :: rb :: s).head?, isWsChar d = false := by
    intro d hd
    simp only [List.head?_cons, Option.mem_def, Option.some.injEq] at hd
    subst hd
    decide
  unfold tryToken
  dsimp only
  rw [if_pos ⟨rfl, rfl⟩]
  rw [takeWs_exact w _ hw hz1]
  dsimp only
  rw [takeName_exact (a :: nm2) _ hnm hz2]
  dsimp only
  rw [if_neg (by simp)]
  rw [takeWs_exact w2 _ hw2 hz3]
  dsimp only
  rw [if_pos ⟨rfl, rfl⟩]

/-- C5: `render_template` replaces every `\x7b\x7bTOKEN\x7d\x7d` occurrence
(optional whitespace inside the braces) whose name lies in SUPPORTED_TOKENS
with the context value, and leaves a token with any other name byte-for-byte
unchanged; rendering is total (no error), scanning left to right past any
prefix free of left braces. -/
theorem c5_render_template_tokens (ctx : String → String)
    (p s w nm w2 : List Char)
    (hp : ∀ c ∈ p, ¬c = lb)
    (hw : ∀ c ∈ w, isWsChar c = true) (hnm : ∀ c ∈ nm, isTokenChar c = true)
    (hne : nm ≠ []) (hw2 : ∀ c ∈ w2, isWsChar c = true) :
    (String.mk nm ∈ SUPPORTED_TOKENS →
      renderTemplate (String.mk (p ++ lb :: lb :: (w ++ (nm ++ (w2 ++ rb :: rb :: s))))) ctx =
        String.mk (p ++ (ctx (String.mk nm)).data ++
          (renderTemplate (String.mk s) ctx).data)) ∧
    (String.mk nm ∉ SUPPORTED_TOKENS →
      renderTemplate (String.mk (p ++ lb :: lb :: (w ++ (nm ++ (w2 ++ rb :: rb :: s))))) ctx =
        String.mk (p ++ (lb :: lb :: (w ++ nm ++ w2 ++ [rb, rb])) ++
          (renderTemplate (String.mk s) ctx).data)) := by
  constructor
  · intro hmem
    show String.mk (substList
        (fun name => if name ∈ SUPPORTED_TOKENS then some (ctx name) else none)
        (p ++ lb :: lb :: (w ++ (nm ++ (w2 ++ rb :: rb :: s))))) = _
    rw [substList_append_clean _ p _ hp,
      substList_cons_some _ (tryToken_token w nm w2 s hw hnm hne hw2)]
    rw [if_pos hmem]
    simp only [List.append_assoc]
    rfl
  · intro hmem
    show String.mk (substList
        (fun name => if name ∈ SUPPORTED_TOKENS then some (ctx name) else none)
        (p ++ lb :: lb :: (w ++ (nm ++ (w2 ++ rb :: rb :: s))))) = _
    rw [substList_append_clean _ p _ hp,
      substList_cons_some _ (tryToken_token w nm w2 s hw hnm hne hw2)]
    rw [if_neg hmem]
    simp only [List.append_assoc]
    rfl

/-- Closed instance of C5: a known token is replaced with the context value
and an unknown token passes through byte-for-byte. -/
theorem c5_witness :
    (renderTemplate (String.mk ("Draft: ".data ++ lb :: lb ::
        ([] ++ ("CURRENT_OUTPUT".data ++ ([] ++ rb :: rb :: " end".data)))))
      (fun t => if t = "CURRENT_OUTPUT" then "HELLO" else "X") =
      String.mk ("Draft: ".data ++ "HELLO".data ++
        (renderTemplate (String.mk " end".data)
          (fun t => if t = "CURRENT_OUTPUT" then "HELLO" else "X")).data)) ∧
    (renderTemplate (String.mk ("pre ".data ++ lb :: lb ::
        (" ".data ++ ("FOO".data ++ ([] ++ rb :: rb :: "!".data)))))
      (fun t => if t = "CURRENT_OUTPUT" then "HELLO" else "X") =
      String.mk ("pre ".data ++ (lb :: lb :: (" ".data ++ "FOO".data ++ [] ++ [rb, rb])) ++
        (renderTemplate (String.mk "!".data)
          (fun t => if t = "CURRENT_OUTPUT" then "HELLO" else "X")).data)) := by
  constructor
  · exact (c5_render_template_tokens _ "Draft: ".data " end".data [] "CURRENT_OUTPUT".data []
      (by decide) (by decide) (by decide) (by decide) (by decide)).1 (by decide)
  · exact (c5_render_template_tokens _ "pre ".data "!".data " ".data "FOO".data []
      (by decide) (by decide) (by decide) (by decide) (by decide)).2 (by decide)

/-! ## llm_client.py — retry/backoff/taxonomy lemmas -/

theorem attemptLoop_category (backend : Nat → BackendResult) (rm : String)
    (mr : Nat) (ws : Bool) :
    ∀ remaining attempt k sleeps e,
      (attemptLoop backend rm mr ws remaining attempt k sleeps).1 = Except.error e →
      e.category ∈ ["auth", "rate_limit", "network", "invalid_request", "server", "unknown"] := by
  intro remaining
  induction remaining with
  | zero =>
    intro attempt k sleeps e h
    rw [attemptLoop] at h
    dsimp only at h
    cases h
    simp
  | succ rem ih =>
    intro attempt k sleeps e h
    rw [attemptLoop] at h
    cases hin : innerLoop backend 4 k true true ws with
    | success t kNew =>
      rw [hin] at h
      dsimp only at h
      cases h
    | exhausted kNew =>
      rw [hin] at h
      dsimp only at h
      cases h
      simp
    | exc e2 kNew =>
      rw [hin] at h
      dsimp only at h
      cases e2 with
      | success t =>
        dsimp only at h
        cases h
      | authError =>
        dsimp only at h
        cases h
        simp
      | badRequest msg =>
        dsimp only at h
        cases h
        simp
      | rateLimit =>
        dsimp only at h
        split_ifs at h with hlt
        · exact ih (attempt + 1) kNew (sleeps ++ [attempt + 1]) e h
        · cases h
          simp
      | connection =>
        dsimp only at h
        split_ifs at h with hlt
        · exact ih (attempt + 1) kNew (sleeps ++ [attempt + 1]) e h
        · cases h
          simp
      | status code =>
        cases code with
        | none =>
          dsimp only at h
          cases h
          simp
        | some c =>
          dsimp only at h
          split_ifs at h with h5 hlt h4
          · exact ih (attempt + 1) kNew (sleeps ++ [attempt + 1]) e h
          · cases h
            simp
          · cases h
            simp
          · cases h
            simp
      | typeErr msg =>
        dsimp only at h
        cases h
        simp
      | otherExc =>
        dsimp only at h
        cases h
        simp

theorem attemptLoop_retry_exhaust (backend : Nat → BackendResult) (rm : String)
    (mr : Nat) (ws : Bool) (err : LLMErr)
    (hbeh : ∀ remaining attempt k sleeps,
      attemptLoop backend rm mr ws (remaining + 1) attempt k sleeps =
        if attempt < mr then
          attemptLoop backend rm mr ws remaining (attempt + 1) (k + 1) (sleeps ++ [attempt + 1])
        else (Except.error err, sleeps, k + 1)) :
    ∀ rem attempt k sleeps, attempt + rem = mr →
      attemptLoop backend rm mr ws (rem + 1) attempt k sleeps =
        (Except.error err, sleeps ++ List.range' (attempt + 1) rem, k + rem + 1) := by
  intro rem
  induction rem with
  | zero =>
    intro attempt k sleeps hsum
    rw [hbeh, if_neg (by omega)]
    simp
  | succ r ih =>
    intro attempt k sleeps hsum
    rw [hbeh, if_pos (by omega)]
    rw [ih (attempt + 1) (k + 1) (sleeps ++ [attempt + 1]) (by omega)]
    rw [List.range'_succ]
    simp only [List.append_assoc, List.singleton_append]
    have harith : k + 1 + r + 1 = k + (r + 1) + 1 := by omega
    rw [harith]

theorem innerLoop_plain_exc (backend : Nat → BackendResult) (fuel k : Nat)
    (tf ti ws : Bool) {e : BackendResult} (hk : backend k = e)
    (he : (match e with
           | .success _ => False
           | .badRequest _ => False
           | .typeErr _ => False
           | _ => True)) :
    innerLoop backend (fuel + 1) k tf ti ws = .exc e (k + 1) := by
  rw [innerLoop, hk]
  cases e <;> first | rfl | exact absurd he not_false

theorem innerLoop_badRequest_plain (backend : Nat → BackendResult) (fuel k : Nat)
    (ws : Bool) (msg : String) (hk : backend k = .badRequest msg)
    (h1 : strContains msg "max_completion_tokens" = false)
    (h2 : strContains msg "temperature" = false)
    (h3 : strContains (lowerStr msg) "web_search_options" = false) :
    innerLoop backend (fuel + 1) k true true ws = .exc (.badRequest msg) (k + 1) := by
  rw [innerLoop, hk]
  simp [h1, h2, h3]

theorem attemptLoop_rateLimit_beh (backend : Nat → BackendResult) (rm : String)
    (mr : Nat) (ws : Bool) (hb : ∀ n, backend n = .rateLimit) :
    ∀ remaining attempt k sleeps,
      attemptLoop backend rm mr ws (remaining + 1) attempt k sleeps =
        if attempt < mr then
          attemptLoop backend rm mr ws remaining (attempt + 1) (k + 1) (sleeps ++ [attempt + 1])
        else (Except.error { message := "Rate limit reached. Retry in a moment.",
                             category := "rate_limit" }, sleeps, k + 1) := by
  intro remaining attempt k sleeps
  rw [attemptLoop]
  rw [show innerLoop backend 4 k true true ws = .exc .rateLimit (k + 1) from
    innerLoop_plain_exc backend 3 k true true ws (hb k) trivial]

theorem attemptLoop_connection_beh (backend : Nat → BackendResult) (rm : String)
    (mr : Nat) (ws : Bool) (hb : ∀ n, backend n = .connection) :
    ∀ remaining attempt k sleeps,
      attemptLoop backend rm mr ws (remaining + 1) attempt k sleeps =
        if attempt < mr then
          attemptLoop backend rm mr ws remaining (attempt + 1) (k + 1) (sleeps ++ [attempt + 1])
        else (Except.error { message := "Network or timeout error while contacting OpenAI.",
                             category := "network" }, sleeps, k + 1) := by
  intro remaining attempt k sleeps
  rw [attemptLoop]
  rw [show innerLoop backend 4 k true true ws = .exc .connection (k + 1) from
    innerLoop_plain_exc backend 3 k true true ws (hb k) trivial]

theorem attemptLoop_server_beh (backend : Nat → BackendResult) (rm : String)
    (mr : Nat) (ws : Bool) (c : Int) (h5 : c ≥ 500)
    (hb : ∀ n, backend n = .status (some c)) :
    ∀ remaining attempt k sleeps,
      attemptLoop backend rm mr ws (remaining + 1) attempt k sleeps =
        if attempt < mr then
          attemptLoop backend rm mr ws remaining (attempt + 1) (k + 1) (sleeps ++ [attempt + 1])
        else (Except.error { message := "OpenAI server error.", category := "server" },
              sleeps, k + 1) := by
  intro remaining attempt k sleeps
  rw [attemptLoop]
  rw [show innerLoop backend 4 k true true ws = .exc (.status (some c)) (k + 1) from
    innerLoop_plain_exc backend 3 k true true ws (hb k) trivial]
  dsimp only
  rw [if_pos h5]

/-- C6: against a stubbed backend, rate-limit, network/timeout and 5xx
failures are retried once per unit of budget with linear backoff (sleeps
1x, 2x, ... the base delay) and, exhausted, raise with category
rate_limit / network / server; authentication failures, 4xx statuses and
plain malformed requests raise immediately with category auth /
invalid_request and are never retried (no sleep, a single invocation);
every error raised carries a category from the closed six-element set. -/
theorem c6_generate_text_retry_taxonomy
    (backend : Nat → BackendResult) (bm pm : String) (tier : ModelTier)
    (ov : Option String) (mr : Nat) :
    (∀ e, (generateText backend bm pm tier ov mr).1 = Except.error e →
      e.category ∈ ["auth", "rate_limit", "network", "invalid_request", "server", "unknown"]) ∧
    ((∀ n, backend n = .rateLimit) →
      generateText backend bm pm tier ov mr =
        (Except.error { message := "Rate limit reached. Retry in a moment.",
                        category := "rate_limit" }, List.range' 1 mr, mr + 1)) ∧
    ((∀ n, backend n = .connection) →
      generateText backend bm pm tier ov mr =
        (Except.error { message := "Network or timeout error while contacting OpenAI.",
                        category := "network" }, List.range' 1 mr, mr + 1)) ∧
    (∀ c : Int, c ≥ 500 → (∀ n, backend n = .status (some c)) →
      generateText backend bm pm tier ov mr =
        (Except.error { message := "OpenAI server error.", category := "server" },
         List.range' 1 mr, mr + 1)) ∧
    (backend 0 = .authError →
      generateText backend bm pm tier ov mr =
        (Except.error { message := "Authentication failed. Check OPENAI_API_KEY and model access.",
                        category := "auth" }, [], 1)) ∧
    (∀ c : Int, 400 ≤ c → c < 500 → backend 0 = .status (some c) →
      generateText backend bm pm tier ov mr =
        (Except.error { message := "OpenAI API error (status " ++ toString c ++ ")",
                        category := "invalid_request" }, [], 1)) ∧
    (∀ msg, backend 0 = .badRequest msg →
      strContains msg "max_completion_tokens" = false →
      strContains msg "temperature" = false →
      strContains (lowerStr msg) "web_search_options" = false →
      generateText backend bm pm tier ov mr =
        (Except.error { message := "Invalid request sent to OpenAI: " ++ msg,
                        category := "invalid_request" }, [], 1)) := by
  refine ⟨?_, ?_, ?_, ?_, ?_, ?_, ?_⟩
  · intro e h
    have h2 : (attemptLoop backend (resolveModel bm pm tier ov) mr
        (supportsChatWebSearch (resolveModel bm pm tier ov)) (mr + 1) 0 0 []).1 =
        Except.error e := h
    exact attemptLoop_category backend (resolveModel bm pm tier ov) mr
      (supportsChatWebSearch (resolveModel bm pm tier ov)) (mr + 1) 0 0 [] e h2
  · intro hb
    have h := attemptLoop_retry_exhaust backend (resolveModel bm pm tier ov) mr
      (supportsChatWebSearch (resolveModel bm pm tier ov)) _
      (attemptLoop_rateLimit_beh backend _ mr _ hb) mr 0 0 [] (by omega)
    show attemptLoop backend (resolveModel bm pm tier ov) mr
      (supportsChatWebSearch (resolveModel bm pm tier ov)) (mr + 1) 0 0 [] = _
    rw [h]
    simp
  · intro hb
    have h := attemptLoop_retry_exhaust backend (resolveModel bm pm tier ov) mr
      (supportsChatWebSearch (resolveModel bm pm tier ov)) _
      (attemptLoop_connection_beh backend _ mr _ hb) mr 0 0 [] (by omega)
    show attemptLoop backend (resolveModel bm pm tier ov) mr
      (supportsChatWebSearch (resolveModel bm pm tier ov)) (mr + 1) 0 0 [] = _
    rw [h]
    simp
  · intro c h5 hb
    have h := attemptLoop_retry_exhaust backend (resolveModel bm pm tier ov) mr
      (supportsChatWebSearch (resolveModel bm pm tier ov)) _
      (attemptLoop_server_beh backend _ mr _ c h5 hb) mr 0 0 [] (by omega)
    show attemptLoop backend (resolveModel bm pm tier ov) mr
      (supportsChatWebSearch (resolveModel bm pm tier ov)) (mr + 1) 0 0 [] = _
    rw [h]
    simp
  · intro hauth
    show attemptLoop backend (resolveModel bm pm tier ov) mr
      (supportsChatWebSearch (resolveModel bm pm tier ov)) (mr + 1) 0 0 [] = _
    rw [attemptLoop]
    rw [show innerLoop backend 4 0 true true
        (supportsChatWebSearch (resolveModel bm pm tier ov)) = .exc .authError 1 from
      innerLoop_plain_exc backend 3 0 true true _ hauth trivial]
  · intro c h4 h5 hb
    show attemptLoop backend (resolveModel bm pm tier ov) mr
      (supportsChatWebSearch (resolveModel bm pm tier ov)) (mr + 1) 0 0 [] = _
    rw [attemptLoop]
    rw [show innerLoop backend 4 0 true true
        (supportsChatWebSearch (resolveModel bm pm tier ov)) = .exc (.status (some c)) 1 from
      innerLoop_plain_exc backend 3 0 true true _ hb trivial]
    dsimp only
    rw [if_neg (by omega), if_pos (by omega)]
  · intro msg hb h1 h2 h3
    show attemptLoop backend (resolveModel bm pm tier ov) mr
      (supportsChatWebSearch (resolveModel bm pm tier ov)) (mr + 1) 0 0 [] = _
    rw [attemptLoop]
    rw [show innerLoop backend 4 0 true true
        (supportsChatWebSearch (resolveModel bm pm tier ov)) = .exc (.badRequest msg) 1 from
      innerLoop_badRequest_plain backend 3 0 _ msg hb h1 h2 h3]

/-- Closed instance of C6: a persistent rate limit with budget 2 retries
twice with sleeps 1x and 2x then raises rate_limit after 3 invocations,
and an authentication failure raises immediately with no sleep. -/
theorem c6_witness :
    (generateText (fun _ => .rateLimit) "b" "p" .budget none 2 =
      (Except.error { message := "Rate limit reached. Retry in a moment.",
                      category := "rate_limit" }, [1, 2], 3)) ∧
    (generateText (fun _ => .authError) "b" "p" .budget none 2 =
      (Except.error { message := "Authentication failed. Check OPENAI_API_KEY and model access.",
                      category := "auth" }, [], 1)) := by
  constructor
  · have h := (c6_generate_text_retry_taxonomy (fun _ => .rateLimit) "b" "p"
      .budget none 2).2.1 (fun n => rfl)
    rw [h]
    rfl
  · exact (c6_generate_text_retry_taxonomy (fun _ => .authError) "b" "p"
      .budget none 2).2.2.2.2.1 rfl

theorem takeWs_spec (y : List Char) :
    (∀ c ∈ (takeWs y).1, isWsChar c = true) ∧
    (∀ d ∈ (takeWs y).2.head?, isWsChar d = false) := by
  induction y with
  | nil => constructor <;> intro x hx <;> simp [takeWs] at hx
  | cons c r ih =>
    by_cases hc : isWsChar c = true
    · constructor
      · intro d hd
        unfold takeWs at hd
        rw [if_pos hc] at hd
        rcases List.mem_cons.mp hd with h | h
        · subst h; exact hc
        · exact ih.1 d h
      · intro d hd
        unfold takeWs at hd
        rw [if_pos hc] at hd
        exact ih.2 d hd
    · have hc2 : isWsChar c = false := by
        cases hcc : isWsChar c
        · rfl
        · exact absurd hcc hc
      constructor
      · intro d hd
        unfold takeWs at hd
        rw [if_neg hc] at hd
        simp at hd
      · intro d hd
        unfold takeWs at hd
        rw [if_neg hc] at hd
        simp at hd
        subst hd
        exact hc2

theorem takeName_spec (y : List Char) :
    (∀ c ∈ (takeName y).1, isTokenChar c = true) ∧
    (∀ d ∈ (takeName y).2.head?, isTokenChar d = false) := by
  induction y with
  | nil => constructor <;> intro x hx <;> simp [takeName] at hx
  | cons c r ih =>
    by_cases hc : isTokenChar c = true
    · constructor
      · intro d hd
        unfold takeName at hd
        rw [if_pos hc] at hd
        rcases List.mem_cons.mp hd with h | h
        · subst h; exact hc
        · exact ih.1 d h
      · intro d hd
        unfold takeName at hd
        rw [if_pos hc] at hd
        exact ih.2 d hd
    · have hc2 : isTokenChar c = false := by
        cases hcc : isTokenChar c
        · rfl
        · exact absurd hcc hc
      constructor
      · intro d hd
        unfold takeName at hd
        rw [if_neg hc] at hd
        simp at hd
      · intro d hd
        unfold takeName at hd
        rw [if_neg hc] at hd
        simp at hd
        subst hd
        exact hc2

theorem tryToken_shape {cs m r : List Char} {nm : String}
    (h : tryToken cs = some (m, nm, r)) :
    ∃ w nmL w2, cs = lb :: lb :: (w ++ (nmL ++ (w2 ++ rb :: rb :: r))) ∧
      m = lb :: lb :: (w ++ nmL ++ w2 ++ [rb, rb]) ∧ nm = String.mk nmL ∧
      (∀ c ∈ w, isWsChar c = true) ∧ (∀ c ∈ nmL, isTokenChar c = true) ∧
      nmL ≠ [] ∧ (∀ c ∈ w2, isWsChar c = true) := by
  unfold tryToken at h
  match cs, h with
  | c1 :: c2 :: y, h =>
    dsimp only at h
    split_ifs at h with h1 h2
    · match hw2 : (takeWs (takeName (takeWs y).2).2).2, h with
      | d1 :: d2 :: r2, h =>
        dsimp only at h
        split_ifs at h with h3
        cases h
        obtain ⟨hc1, hc2⟩ := h1
        obtain ⟨hd1, hd2⟩ := h3
        subst hc1; subst hc2; subst hd1; subst hd2
        have e1 := takeWs_append_eq y
        have e2 := takeName_append_eq (takeWs y).2
        have e3 := takeWs_append_eq (takeName (takeWs y).2).2
        rw [hw2] at e3
        refine ⟨(takeWs y).1, (takeName (takeWs y).2).1,
          (takeWs (takeName (takeWs y).2).2).1, ?_, rfl, rfl,
          (takeWs_spec y).1, (takeName_spec (takeWs y).2).1, h2,
          (takeWs_spec (takeName (takeWs y).2).2).1⟩
        rw [e3, e2, e1]

theorem tryToken_append_some {cs m r : List Char} {nm : String} (ys : List Char)
    (h : tryToken cs = some (m, nm, r)) :
    tryToken (cs ++ ys) = some (m, nm, r ++ ys) := by
  obtain ⟨w, nmL, w2, hcs, hm, hnm, hw, hn, hne, hw2⟩ := tryToken_shape h
  subst hcs
  subst hm
  subst hnm
  have hmain := tryToken_token w nmL w2 (r ++ ys) hw hn hne hw2
  rw [show (lb :: lb :: (w ++ (nmL ++ (w2 ++ rb :: rb :: r)))) ++ ys =
      lb :: lb :: (w ++ (nmL ++ (w2 ++ rb :: rb :: (r ++ ys)))) from by
    simp [List.cons_append, List.append_assoc]]
  exact hmain

theorem tryToken_append_block_none (cs : List Char) (h : tryToken cs = none) :
    tryToken (cs ++ currentDraftBlock.data) = none := by
  match cs with
  | [] => rfl
  | [c] =>
    by_cases hc : c = lb
    · subst hc
      rfl
    · exact tryToken_head_ne _ hc
  | c1 :: c2 :: y =>
    by_cases h12 : c1 = lb ∧ c2 = lb
    · obtain ⟨rfl, rfl⟩ := h12
      obtain ⟨w, y1, hW⟩ : ∃ u v, takeWs y = (u, v) := ⟨_, _, rfl⟩
      have hyEq : w ++ y1 = y := by rw [← takeWs_append_eq y, hW]
      have hwAll : ∀ c ∈ w, isWsChar c = true := by
        have h2 := (takeWs_spec y).1
        rw [hW] at h2
        exact h2
      have hy1head : ∀ d ∈ y1.head?, isWsChar d = false := by
        have h2 := (takeWs_spec y).2
        rw [hW] at h2
        exact h2
      show tryToken (lb :: lb :: (y ++ currentDraftBlock.data)) = none
      unfold tryToken
      dsimp only
      rw [if_pos ⟨rfl, rfl⟩]
      cases y1 with
      | nil =>
        have hyw : ∀ c ∈ y, isWsChar c = true := by
          intro c hc
          rw [← hyEq] at hc
          simp at hc
          exact hwAll c hc
        rw [show y ++ currentDraftBlock.data =
            (y ++ ['\n', '\n']) ++ "Current draft:\n\x7b\x7bCURRENT_OUTPUT\x7d\x7d".data from by
          rw [show currentDraftBlock.data =
            ['\n', '\n'] ++ "Current draft:\n\x7b\x7bCURRENT_OUTPUT\x7d\x7d".data from rfl,
            List.append_assoc]]
        rw [takeWs_exact (y ++ ['\n', '\n']) _
          (by
            intro c hc
            rcases List.mem_append.mp hc with hc | hc
            · exact hyw c hc
            · simp at hc
              subst hc
              decide)
          (by decide)]
        rfl
      | cons a y2 =>
        have haNotWs : isWsChar a = false := hy1head a (by simp)
        rw [show y ++ currentDraftBlock.data = w ++ ((a :: y2) ++ currentDraftBlock.data) from by
          rw [← hyEq, List.append_assoc]]
        rw [takeWs_exact w _ hwAll
          (by
            intro d hd
            simp at hd
            subst hd
            exact haNotWs)]
        dsimp only
        by_cases haTok : isTokenChar a = true
        case neg =>
          rw [show (a :: y2) ++ currentDraftBlock.data =
              a :: (y2 ++ currentDraftBlock.data) from rfl]
          rw [show takeName (a :: (y2 ++ currentDraftBlock.data)) =
              ([], a :: (y2 ++ currentDraftBlock.data)) from by
            unfold takeName
            rw [if_neg haTok]]
          rfl
        case pos =>
          obtain ⟨nmT, y3, hN⟩ : ∃ u v, takeName y2 = (u, v) := ⟨_, _, rfl⟩
          have hy2Eq : nmT ++ y3 = y2 := by rw [← takeName_append_eq y2, hN]
          have hnmAll : ∀ c ∈ nmT, isTokenChar c = true := by
            have h2 := (takeName_spec y2).1
            rw [hN] at h2
            exact h2
          have hy3head : ∀ d ∈ y3.head?, isTokenChar d = false := by
            have h2 := (takeName_spec y2).2
            rw [hN] at h2
            exact h2
          cases y3 with
          | nil =>
            have hy2tok : ∀ c ∈ y2, isTokenChar c = true := by
              intro c hc
              rw [← hy2Eq] at hc
              simp at hc
              exact hnmAll c hc
            rw [takeName_exact (a :: y2) currentDraftBlock.data
              (by
                intro c hc
                rcases List.mem_cons.mp hc with rfl | hc
                · exact haTok
                · exact hy2tok c hc)
              (by decide)]
            dsimp only
            rw [if_neg (by simp)]
            rfl
          | cons b y4 =>
            have hbNotTok : isTokenChar b = false := hy3head b (by simp)
            rw [show (a :: y2) ++ currentDraftBlock.data =
                (a :: nmT) ++ ((b :: y4) ++ currentDraftBlock.data) from by
              rw [← hy2Eq]
              simp [List.append_assoc]]
            rw [takeName_exact (a :: nmT) _
              (by
                intro c hc
                rcases List.mem_cons.mp hc with rfl | hc
                · exact haTok
                · exact hnmAll c hc)
              (by
                intro d hd
                simp at hd
                subst hd
                exact hbNotTok)]
            dsimp only
            rw [if_neg (by simp)]
            obtain ⟨w2, y5, hW2⟩ : ∃ u v, takeWs (b :: y4) = (u, v) := ⟨_, _, rfl⟩
            have hy4Eq : w2 ++ y5 = b :: y4 := by rw [← takeWs_append_eq (b :: y4), hW2]
            have hw2All : ∀ c ∈ w2, isWsChar c = true := by
              have h2 := (takeWs_spec (b :: y4)).1
              rw [hW2] at h2
              exact h2
            have hy5head : ∀ d ∈ y5.head?, isWsChar d = false := by
              have h2 := (takeWs_spec (b :: y4)).2
              rw [hW2] at h2
              exact h2
            cases y5 with
            | nil =>
              have hwsAll : ∀ c ∈ b :: y4, isWsChar c = true := by
                intro c hc
                rw [← hy4Eq] at hc
                simp at hc
                exact hw2All c hc
              rw [show (b :: y4) ++ currentDraftBlock.data =
                  ((b :: y4) ++ ['\n', '\n']) ++
                    "Current draft:\n\x7b\x7bCURRENT_OUTPUT\x7d\x7d".data from by
                rw [show currentDraftBlock.data =
                  ['\n', '\n'] ++ "Current draft:\n\x7b\x7bCURRENT_OUTPUT\x7d\x7d".data from rfl,
                  List.append_assoc]]
              rw [takeWs_exact ((b :: y4) ++ ['\n', '\n']) _
                (by
                  intro c hc
                  rcases List.mem_append.mp hc with hc | hc
                  · exact hwsAll c hc
                  · simp at hc
                    subst hc
                    decide)
                (by decide)]
              rfl
            | cons d y6 =>
              have hdNotWs : isWsChar d = false := hy5head d (by simp)
              rw [show (b :: y4) ++ currentDraftBlock.data =
                  w2 ++ ((d :: y6) ++ currentDraftBlock.data) from by
                rw [← hy4Eq]
                simp [List.append_assoc]]
              rw [takeWs_exact w2 _ hw2All
                (by
                  intro x hx
                  simp at hx
                  subst hx
                  exact hdNotWs)]
              dsimp only
              cases y6 with
              | nil =>
                rw [show (d :: ([] : List Char)) ++ currentDraftBlock.data =
                    d :: '\n' :: ('\n' :: "Current draft:\n\x7b\x7bCURRENT_OUTPUT\x7d\x7d".data)
                    from rfl]
                dsimp only
                rw [if_neg (fun hp => absurd hp.2 (by decide))]
              | cons e y7 =>
                have hno : ¬(d = rb ∧ e = rb) := by
                  intro hde
                  obtain ⟨rfl, rfl⟩ := hde
                  have hcontra := tryToken_token w (a :: nmT) w2 y7 hwAll
                    (by
                      intro c hc
                      rcases List.mem_cons.mp hc with rfl | hc
                      · exact haTok
                      · exact hnmAll c hc)
                    (by simp) hw2All
                  rw [show lb :: lb :: (w ++ ((a :: nmT) ++ (w2 ++ rb :: rb :: y7))) =
                      lb :: lb :: y from by
                    rw [← hyEq, ← hy2Eq, ← hy4Eq]
                    simp [List.append_assoc]] at hcontra
                  rw [h] at hcontra
                  cases hcontra
                rw [show (d :: e :: y7) ++ currentDraftBlock.data =
                    d :: e :: (y7 ++ currentDraftBlock.data) from rfl]
                dsimp only
                rw [if_neg hno]
    · show tryToken (c1 :: c2 :: (y ++ currentDraftBlock.data)) = none
      unfold tryToken
      dsimp only
      rw [if_neg h12]

theorem findList_block : findList currentDraftBlock.data = ["CURRENT_OUTPUT"] := by
  rfl

theorem findList_append_block :
    ∀ n xs, xs.length ≤ n →
      findList (xs ++ currentDraftBlock.data) = findList xs ++ ["CURRENT_OUTPUT"] := by
  intro n
  induction n with
  | zero =>
    intro xs h
    have hnil : xs = [] := List.eq_nil_of_length_eq_zero (Nat.le_zero.mp h)
    subst hnil
    simpa using findList_block
  | succ k ih =>
    intro xs hlen
    cases xs with
    | nil => simpa using findList_block
    | cons c rest =>
      cases htk : tryToken (c :: rest) with
      | some t =>
        obtain ⟨m, nm, r⟩ := t
        have hlt := tryToken_rest_lt htk
        rw [findList_cons_some (tryToken_append_some currentDraftBlock.data htk),
          findList_cons_some htk]
        simp only [List.length_cons] at hlen hlt
        rw [ih r (by omega)]
        simp
      | none =>
        have h1 : findList ((c :: rest) ++ currentDraftBlock.data) =
            findList (rest ++ currentDraftBlock.data) :=
          findList_cons_none c (rest ++ currentDraftBlock.data)
            (tryToken_append_block_none (c :: rest) htk)
        simp only [List.length_cons] at hlen
        rw [h1, ih rest (by omega), findList_cons_none c rest htk]

theorem containsList_append_right (needle xs ys : List Char)
    (h : containsList needle ys = true) : containsList needle (xs ++ ys) = true := by
  induction xs with
  | nil => simpa using h
  | cons c rest ih =>
    show containsList needle (c :: (rest ++ ys)) = true
    unfold containsList
    rw [ih]
    simp

theorem dropWs_eq_self (l : List Char) (h : ∀ c ∈ l.head?, isWsChar c = false) :
    dropWs l = l := by
  cases l with
  | nil => rfl
  | cons c r =>
    unfold dropWs
    rw [if_neg (by simp [h c (by simp)])]

theorem pyStrip_eq_self (s : String) (h1 : ∀ c ∈ s.data.head?, isWsChar c = false)
    (h2 : ∀ c ∈ s.data.getLast?, isWsChar c = false) :
    pyStrip s = s := by
  unfold pyStrip
  rw [dropWs_eq_self s.data h1]
  rw [dropWs_eq_self s.data.reverse (by
    intro c hc
    rw [List.head?_reverse] at hc
    exact h2 c hc)]
  rw [List.reverse_reverse]

/-- Character contribution of the remaining lines of a `"\n".intercalate`:
one separator before each element. -/
def joinPieces (sep : String) : List String → List Char
  | [] => []
  | x :: rest => (sep.data ++ x.data) ++ joinPieces sep rest

theorem string_data_append (a b : String) : (a ++ b).data = a.data ++ b.data := rfl

theorem intercalate_go_data (sep : String) :
    ∀ (l : List String) (acc : String),
      (String.intercalate.go acc sep l).data = acc.data ++ joinPieces sep l := by
  intro l
  induction l with
  | nil =>
    intro acc
    rw [String.intercalate.go]
    simp [joinPieces]
  | cons x rest ih =>
    intro acc
    rw [String.intercalate.go, ih]
    simp [joinPieces, string_data_append, List.append_assoc]

theorem intercalate_data_cons (sep a : String) (rest : List String) :
    (String.intercalate sep (a :: rest)).data = a.data ++ joinPieces sep rest := by
  rw [String.intercalate]
  exact intercalate_go_data sep rest a

theorem joinPieces_append (sep : String) (u v : List String) :
    joinPieces sep (u ++ v) = joinPieces sep u ++ joinPieces sep v := by
  induction u with
  | nil => rfl
  | cons x t ih => simp [joinPieces, ih, List.append_assoc]

theorem joinPieces_clean (sep : String) (hsep : ∀ c ∈ sep.data, ¬ c = lb)
    (l : List String) (hl : ∀ x ∈ l, ∀ c ∈ x.data, ¬ c = lb) :
    ∀ c ∈ joinPieces sep l, ¬ c = lb := by
  induction l with
  | nil =>
    intro c hc
    simp [joinPieces] at hc
  | cons x t ih =>
    intro c hc
    simp only [joinPieces, List.append_assoc, List.mem_append] at hc
    rcases hc with hc | hc | hc
    · exact hsep c hc
    · exact hl x (by simp) c hc
    · exact ih (fun y hy => hl y (by simp [hy])) c hc

theorem startsWithList_append_self (xs ys : List Char) :
    startsWithList xs (xs ++ ys) = true := by
  induction xs with
  | nil => rfl
  | cons a t ih =>
    show startsWithList (a :: t) (a :: (t ++ ys)) = true
    unfold startsWithList
    simp [ih]

theorem containsList_self_front (needle rest : List Char) (h : needle ≠ []) :
    containsList needle (needle ++ rest) = true := by
  cases needle with
  | nil => exact absurd rfl h
  | cons a t =>
    show containsList (a :: t) (a :: (t ++ rest)) = true
    unfold containsList
    rw [show a :: (t ++ rest) = (a :: t) ++ rest from rfl, startsWithList_append_self]
    simp

theorem head_append_cons {α : Type} (a : α) (t r : List α) :
    ((a :: t) ++ r).head? = some a := rfl

theorem findList_clean_token_clean (p srest : List Char)
    (hp : ∀ c ∈ p, ¬ c = lb) (hs : ∀ c ∈ srest, ¬ c = lb) :
    findList (p ++ (currentOutputToken.data ++ srest)) = ["CURRENT_OUTPUT"] := by
  rw [findList_append_clean p _ hp]
  rw [show currentOutputToken.data ++ srest =
      lb :: lb :: (([] : List Char) ++ ("CURRENT_OUTPUT".data ++
        (([] : List Char) ++ rb :: rb :: srest))) from rfl]
  rw [findList_cons_some (tryToken_token [] "CURRENT_OUTPUT".data [] srest
    (by simp) (by decide) (by decide) (by simp))]
  rw [show findList srest = [] from by
    have h2 := findList_append_clean srest [] hs
    rw [List.append_nil] at h2
    simpa using h2]

theorem head_append_left {α : Type} (l1 l2 : List α) (h : l1 ≠ []) :
    (l1 ++ l2).head? = l1.head? := by
  cases l1 with
  | nil => exact absurd rfl h
  | cons a t => rfl

theorem jp_last_seg (PI L : String) :
    joinPieces "\n" ["", PI, "", "Current draft:", currentOutputToken, "", L] =
      ('\n' :: ('\n' :: (PI.data ++ ('\n' :: ('\n' :: ("Current draft:".data ++ ['\n'])))))) ++
      (currentOutputToken.data ++ ('\n' :: ('\n' :: L.data))) := by
  simp [joinPieces, List.append_assoc, show "\n".data = ['\n'] from rfl,
    show "".data = ([] : List Char) from rfl]

theorem architect_intercalate_facts (F : String) (mids : List String) (PI L : String)
    (hF : ∀ c ∈ F.data, ¬ c = lb)
    (hFne : F.data ≠ [])
    (hFhead : ∀ c ∈ F.data.head?, isWsChar c = false)
    (hmids : ∀ x ∈ mids, ∀ c ∈ x.data, ¬ c = lb)
    (hPI : ∀ c ∈ PI.data, ¬ c = lb)
    (hL : ∀ c ∈ L.data, ¬ c = lb)
    (hLne : L.data ≠ [])
    (hLlast : ∀ c ∈ L.data.reverse.head?, isWsChar c = false) :
    findTokensList (pyStrip (String.intercalate "\n"
      (F :: (mids ++ ["", PI, "", "Current draft:", currentOutputToken, "", L])))) =
      ["CURRENT_OUTPUT"] ∧
    strContains (pyStrip (String.intercalate "\n"
      (F :: (mids ++ ["", PI, "", "Current draft:", currentOutputToken, "", L]))))
      currentOutputToken = true ∧
    pyStrip (String.intercalate "\n"
      (F :: (mids ++ ["", PI, "", "Current draft:", currentOutputToken, "", L]))) ≠ "" := by
  have hD : (String.intercalate "\n"
      (F :: (mids ++ ["", PI, "", "Current draft:", currentOutputToken, "", L]))).data =
      (F.data ++ (joinPieces "\n" mids ++
        ('\n' :: ('\n' :: (PI.data ++ ('\n' :: ('\n' :: ("Current draft:".data ++ ['\n'])))))))) ++
      (currentOutputToken.data ++ ('\n' :: ('\n' :: L.data))) := by
    rw [intercalate_data_cons, joinPieces_append, jp_last_seg]
    simp [List.append_assoc]
  have hPclean : ∀ c ∈ F.data ++ (joinPieces "\n" mids ++
      ('\n' :: ('\n' :: (PI.data ++ ('\n' :: ('\n' :: ("Current draft:".data ++ ['\n']))))))),
      ¬ c = lb := by
    intro c hc
    rcases List.mem_append.mp hc with hc | hc
    · exact hF c hc
    rcases List.mem_append.mp hc with hc | hc
    · exact joinPieces_clean "\n" (by decide) mids hmids c hc
    rcases List.mem_cons.mp hc with rfl | hc
    · decide
    rcases List.mem_cons.mp hc with rfl | hc
    · decide
    rcases List.mem_append.mp hc with hc | hc
    · exact hPI c hc
    rcases List.mem_cons.mp hc with rfl | hc
    · decide
    rcases List.mem_cons.mp hc with rfl | hc
    · decide
    rcases List.mem_append.mp hc with hc | hc
    · exact (by decide : ∀ c ∈ "Current draft:".data, ¬ c = lb) c hc
    · simp at hc
      subst hc
      decide
  have hSclean : ∀ c ∈ ('\n' :: ('\n' :: L.data)), ¬ c = lb := by
    intro c hc
    rcases List.mem_cons.mp hc with rfl | hc
    · decide
    rcases List.mem_cons.mp hc with rfl | hc
    · decide
    exact hL c hc
  have hstrip : pyStrip (String.intercalate "\n"
      (F :: (mids ++ ["", PI, "", "Current draft:", currentOutputToken, "", L]))) =
      String.intercalate "\n"
        (F :: (mids ++ ["", PI, "", "Current draft:", currentOutputToken, "", L])) := by
    apply pyStrip_eq_self
    · intro c hc
      rw [hD, List.append_assoc, head_append_left _ _ hFne] at hc
      exact hFhead c hc
    · intro c hc
      rw [← List.head?_reverse] at hc
      rw [hD] at hc
      simp only [List.reverse_append, List.reverse_cons, List.append_assoc] at hc
      rw [head_append_left L.data.reverse _
        (fun hnil => hLne (List.reverse_eq_nil_iff.mp hnil))] at hc
      exact hLlast c hc
  refine ⟨?_, ?_, ?_⟩
  · rw [hstrip]
    show findList (String.intercalate "\n"
      (F :: (mids ++ ["", PI, "", "Current draft:", currentOutputToken, "", L]))).data = _
    rw [hD]
    exact findList_clean_token_clean _ _ hPclean hSclean
  · rw [hstrip]
    show containsList currentOutputToken.data (String.intercalate "\n"
      (F :: (mids ++ ["", PI, "", "Current draft:", currentOutputToken, "", L]))).data = true
    rw [hD]
    exact containsList_append_right _ _ _ (containsList_self_front _ _ (by decide))
  · rw [hstrip]
    intro hemp
    have hnil : (String.intercalate "\n"
        (F :: (mids ++ ["", PI, "", "Current draft:", currentOutputToken, "", L]))).data = [] := by
      rw [hemp]
    rw [hD] at hnil
    rcases List.append_eq_nil.mp hnil with ⟨h1, h2⟩
    rcases List.append_eq_nil.mp h2 with ⟨h3, h4⟩
    exact absurd h3 (by decide)

theorem getFormatGuidance_clean (ft : String) :
    ∀ c ∈ (getFormatGuidance ft).data, ¬ c = lb := by
  unfold getFormatGuidance
  dsimp only
  split_ifs <;> decide

theorem lines_shape (F c2 e obj O : String) (ite1 ite2 : List String)
    (b1 tft gd : String) (ite3 : List String) (e1 PI e2 cd tok e3 L : String) :
    ([F, c2, e, obj, O] ++ ite1 ++ ite2 ++ [b1, tft, gd] ++ ite3 ++
        [e1, PI, e2, cd, tok, e3, L]) =
      F :: (([c2, e, obj, O] ++ (ite1 ++ (ite2 ++ ([b1, tft, gd] ++ ite3)))) ++
        [e1, PI, e2, cd, tok, e3, L]) := by
  simp [List.append_assoc]

theorem buildFallbackTemplate_facts (state : ProjectState) (phase : Phase) (ft : String)
    (ho : ∀ c ∈ (pyStrip state.outcome).data, ¬ c = lb)
    (hr : ∀ c ∈ (pyStrip state.requirements_constraints).data, ¬ c = lb)
    (hs : ∀ c ∈ (pyStrip state.special_resources).data, ¬ c = lb)
    (hp : ∀ c ∈ (phaseRulesFor state phase).data, ¬ c = lb)
    (hf : ∀ c ∈ ft.data, ¬ c = lb) :
    findTokensList (buildFallbackTemplate state phase ft) = ["CURRENT_OUTPUT"] ∧
    strContains (buildFallbackTemplate state phase ft) currentOutputToken = true ∧
    buildFallbackTemplate state phase ft ≠ "" := by
  unfold buildFallbackTemplate
  dsimp only
  rw [lines_shape]
  refine architect_intercalate_facts _ _ _ _ (by decide) (by decide) (by decide)
    ?_ ?_ (by decide) (by decide) (by decide)
  · intro x hx
    rcases List.mem_append.mp hx with hx | hx
    · simp only [List.mem_cons] at hx
      rcases hx with rfl | rfl | rfl | rfl | hx
      · decide
      · decide
      · decide
      · by_cases hoe : pyStrip state.outcome = ""
        · rw [if_pos hoe]
          decide
        · rw [if_neg hoe]
          exact ho
      · simp at hx
    · rcases List.mem_append.mp hx with hx | hx
      · split_ifs at hx with hcond
        · simp only [List.mem_cons] at hx
          rcases hx with rfl | rfl | rfl | hx
          · decide
          · decide
          · exact hr
          · simp at hx
        · simp at hx
      · rcases List.mem_append.mp hx with hx | hx
        · split_ifs at hx with hcond
          · simp only [List.mem_cons] at hx
            rcases hx with rfl | rfl | rfl | hx
            · decide
            · decide
            · exact hs
            · simp at hx
          · simp at hx
        · rcases List.mem_append.mp hx with hx | hx
          · simp only [List.mem_cons] at hx
            rcases hx with rfl | rfl | rfl | hx
            · decide
            · intro c hc
              rw [string_data_append] at hc
              rcases List.mem_append.mp hc with hc | hc
              · exact (by decide : ∀ c ∈ "Target output format: ".data, ¬ c = lb) c hc
              · exact hf c hc
            · exact getFormatGuidance_clean ft
            · simp at hx
          · split_ifs at hx with hcond
            · simp only [List.mem_cons] at hx
              rcases hx with rfl | rfl | rfl | hx
              · decide
              · decide
              · exact hp
              · simp at hx
            · simp at hx
  · cases phase <;> decide

theorem finalizeGeneratedTemplate_facts (raw : String) (state : ProjectState)
    (phase : Phase) (ft : String)
    (ho : ∀ c ∈ (pyStrip state.outcome).data, ¬ c = lb)
    (hr : ∀ c ∈ (pyStrip state.requirements_constraints).data, ¬ c = lb)
    (hs : ∀ c ∈ (pyStrip state.special_resources).data, ¬ c = lb)
    (hp : ∀ c ∈ (phaseRulesFor state phase).data, ¬ c = lb)
    (hf : ∀ c ∈ ft.data, ¬ c = lb) :
    (∀ t ∈ findTokensList (finalizeGeneratedTemplate raw state phase ft),
      t = "CURRENT_OUTPUT") ∧
    strContains (finalizeGeneratedTemplate raw state phase ft) currentOutputToken = true ∧
    finalizeGeneratedTemplate raw state phase ft ≠ "" := by
  unfold finalizeGeneratedTemplate
  dsimp only
  generalize hC : removeEmptyBranchingLines
    (pyStrip (replaceKnownTokens state phase ft (stripCodeFences raw))) = C
  split_ifs with h1 h2 h3
  · obtain ⟨ha, hb, hc⟩ := buildFallbackTemplate_facts state phase ft ho hr hs hp hf
    refine ⟨?_, hb, hc⟩
    rw [ha]
    intro t ht
    simpa using ht
  · obtain ⟨ha, hb, hc⟩ := buildFallbackTemplate_facts state phase ft ho hr hs hp hf
    refine ⟨?_, hb, hc⟩
    rw [ha]
    intro t ht
    simpa using ht
  · have hfilter : (findTokensList C).filter (fun t => t ≠ "CURRENT_OUTPUT") = [] := by
      by_contra hcon
      exact h2 hcon
    refine ⟨?_, ?_, ?_⟩
    · intro t ht
      have hx := (List.filter_eq_nil.mp hfilter) t ht
      simpa using hx
    · exact h3
    · intro hemp
      exact h1 (Or.inl hemp)
  · have hfilter : (findTokensList C).filter (fun t => t ≠ "CURRENT_OUTPUT") = [] := by
      by_contra hcon
      exact h2 hcon
    have hall : ∀ t ∈ findTokensList C, t = "CURRENT_OUTPUT" := by
      intro t ht
      have hx := (List.filter_eq_nil.mp hfilter) t ht
      simpa using hx
    refine ⟨?_, ?_, ?_⟩
    · show ∀ t ∈ findList (C.data ++ currentDraftBlock.data), t = "CURRENT_OUTPUT"
      rw [findList_append_block C.data.length C.data le_rfl]
      intro t ht
      rcases List.mem_append.mp ht with ht | ht
      · exact hall t ht
      · simpa using ht
    · show containsList currentOutputToken.data (C.data ++ currentDraftBlock.data) = true
      exact containsList_append_right _ _ _ (by decide)
    · intro hemp
      have hnil : C.data ++ currentDraftBlock.data = [] := by
        have h4 := congrArg String.data hemp
        simpa using h4
      rcases List.append_eq_nil.mp hnil with ⟨hx, hy⟩
      exact absurd hy (by decide)

/-- C7 (amended): for every raw model output and every LLM failure, when the
project fields (stripped outcome, requirements, special resources, phase
rules) and the format target contain no left-brace character, the generated
phase template — gate-accepted output, gate-rejected fallback, or
error-path fallback alike — is non-empty, contains the literal
`\x7b\x7bCURRENT_OUTPUT\x7d\x7d` token (appended in the canonical Current
draft block when missing), and references no template token other than
CURRENT_OUTPUT.  The brace-freedom hypotheses are necessary: with braces in
a project field the deterministic fallback can reference recognized tokens
(see the counterexample). -/
theorem c7_architect_gate_and_fallback (llm_outcome : Except LLMErr String)
    (state : ProjectState) (phase : Phase) (ft : String)
    (ho : ∀ c ∈ (pyStrip state.outcome).data, ¬ c = lb)
    (hr : ∀ c ∈ (pyStrip state.requirements_constraints).data, ¬ c = lb)
    (hs : ∀ c ∈ (pyStrip state.special_resources).data, ¬ c = lb)
    (hp : ∀ c ∈ (phaseRulesFor state phase).data, ¬ c = lb)
    (hf : ∀ c ∈ ft.data, ¬ c = lb) :
    (∀ t ∈ findTokensList
        ((generatePhaseTemplateWithFallback llm_outcome state phase ft).1),
      t = "CURRENT_OUTPUT") ∧
    strContains ((generatePhaseTemplateWithFallback llm_outcome state phase ft).1)
      currentOutputToken = true ∧
    (generatePhaseTemplateWithFallback llm_outcome state phase ft).1 ≠ "" := by
  cases llm_outcome with
  | ok raw =>
    simp only [generatePhaseTemplateWithFallback]
    exact finalizeGeneratedTemplate_facts raw state phase ft ho hr hs hp hf
  | error e =>
    simp only [generatePhaseTemplateWithFallback]
    obtain ⟨ha, hb, hc⟩ := buildFallbackTemplate_facts state phase ft ho hr hs hp hf
    refine ⟨?_, hb, hc⟩
    rw [ha]
    intro t ht
    simpa using ht

set_option maxHeartbeats 4000000 in
/-- C7 counterexample: when a project field itself contains a brace token,
the deterministic fallback does reference a recognized template token other
than CURRENT_OUTPUT, contradicting the unconditional claim. -/
theorem c7_fallback_counterexample :
    "FORMAT" ∈ findTokensList
      ((generatePhaseTemplateWithFallback
          (Except.error { message := "boom", category := "network" })
          { outcome := "\x7b\x7bFORMAT\x7d\x7d" } Phase.additive "Markdown").1) ∧
    "FORMAT" ∈ SUPPORTED_TOKENS ∧ ¬ "FORMAT" = "CURRENT_OUTPUT" := by
  decide

/-- Closed instance of the amended C7 on a brace-free project. -/
theorem c7_witness :
    (∀ t ∈ findTokensList ((generatePhaseTemplateWithFallback
        (Except.ok "Improve the draft.")
        { outcome := "Ship it" } Phase.additive "Markdown").1), t = "CURRENT_OUTPUT") ∧
    strContains ((generatePhaseTemplateWithFallback (Except.ok "Improve the draft.")
        { outcome := "Ship it" } Phase.additive "Markdown").1) currentOutputToken = true ∧
    (generatePhaseTemplateWithFallback (Except.ok "Improve the draft.")
        { outcome := "Ship it" } Phase.additive "Markdown").1 ≠ "" :=
  c7_architect_gate_and_fallback (Except.ok "Improve the draft.") { outcome := "Ship it" }
    Phase.additive "Markdown" (by decide) (by decide) (by decide) (by decide) (by decide)
